import Mathlib

/-
Verification development for the FEEN HLV Dynamics Lab core
(`python/plugins/hlv_dynamics.py`).

The Python module is shallowly embedded:
  * NumPy float arithmetic is modelled as exact rational arithmetic (ℚ);
    the float constant `math.pi` is kept as the exact rational value of the
    IEEE-754 double it denotes.
  * Transcendental float routines (`np.sin`, `math.log`, `np.sqrt`,
    `np.angle`) are deterministic pure functions of their argument; each is
    modelled by a fixed computable rational surrogate (a truncated series /
    Newton iteration).  No claim below constrains their pointwise values —
    only determinism and algebraic structure (e.g. `sin 0 = 0`) are used.
  * `np.random.default_rng(seed)` is a deterministic generator; it is
    modelled by an explicit seed-indexed family of draw streams
    (`RngFamily`), threaded through the simulation with explicit counters.
  * Python dictionaries holding the run configuration are modelled by the
    structure `Cfg`, covering exactly the configuration surface the module
    reads; perturbation events are the structure `Ev`.
  * `json.dumps(..., indent=2, sort_keys=True)`, the csv writer and the
    jsonl event log are modelled character-exactly as `List Char`
    serializers (numbers are printed through an injective canonical
    rational form standing in for Python's round-tripping float `repr`).
  * SHA-256 is modelled by the exact byte stream fed to the hasher
    (`hashInput`): equality / difference of that stream corresponds to
    equality / collision-freeness of the real digest.
-/

-- ===========================================================================
-- Character-level serialization layer
-- ===========================================================================

/-- Decimal digit characters of a natural number, most significant first;
`0` prints as `"0"`.  Models Python's `repr` of a nonnegative int. -/
def natChars (n : ℕ) : List Char :=
  if n = 0 then ['0'] else ((Nat.digits 10 n).map Nat.digitChar).reverse

/-- Characters of an integer: optional leading minus sign. -/
def intChars (z : ℤ) : List Char :=
  if z < 0 then '-' :: natChars z.natAbs else natChars z.natAbs

/-- Canonical injective character form of a rational number
(`num/den` in lowest terms).  This stands in for Python's float `repr`,
which is likewise injective on the float values a run can produce. -/
def ratChars (q : ℚ) : List Char :=
  intChars q.num ++ '/' :: natChars q.den

theorem digitChar_inj_lt10 :
    ∀ d1 < 10, ∀ d2 < 10, Nat.digitChar d1 = Nat.digitChar d2 → d1 = d2 := by
  decide

theorem digitChar_range (d : ℕ) (hd : d < 10) :
    48 ≤ (Nat.digitChar d).toNat ∧ (Nat.digitChar d).toNat ≤ 57 := by
  interval_cases d <;> decide

theorem mem_natChars_range {c : Char} {n : ℕ} (h : c ∈ natChars n) :
    48 ≤ c.toNat ∧ c.toNat ≤ 57 := by
  unfold natChars at h
  by_cases h0 : n = 0
  · simp [h0] at h
    subst h; decide
  · simp [h0, List.mem_reverse, List.mem_map] at h
    obtain ⟨d, hd, hc⟩ := h
    have hlt : d < 10 := Nat.digits_lt_base (by norm_num) hd
    subst hc
    exact digitChar_range d hlt

theorem not_mem_natChars {c : Char} {n : ℕ}
    (h : c.toNat < 48 ∨ 57 < c.toNat) : c ∉ natChars n := by
  intro hmem
  have := mem_natChars_range hmem
  omega

theorem natChars_ne_nil (n : ℕ) : natChars n ≠ [] := by
  unfold natChars
  by_cases h0 : n = 0
  · simp [h0]
  · simp [h0, Nat.digits_ne_nil_iff_ne_zero]

theorem mapDigitChar_inj :
    ∀ (L1 L2 : List ℕ), (∀ d ∈ L1, d < 10) → (∀ d ∈ L2, d < 10) →
      L1.map Nat.digitChar = L2.map Nat.digitChar → L1 = L2 := by
  intro L1
  induction L1 with
  | nil => intro L2 _ _ h; cases L2 <;> simp_all
  | cons a t ih =>
    intro L2 hL1 hL2 h
    cases L2 with
    | nil => simp_all
    | cons b t2 =>
      simp only [List.map_cons, List.cons.injEq] at h
      have ha : a = b :=
        digitChar_inj_lt10 a (hL1 a (by simp)) b (hL2 b (by simp)) h.1
      have ht : t = t2 := ih t2 (fun d hd => hL1 d (by simp [hd]))
        (fun d hd => hL2 d (by simp [hd])) h.2
      simp [ha, ht]

theorem natChars_inj {m n : ℕ} (h : natChars m = natChars n) : m = n := by
  unfold natChars at h
  by_cases hm : m = 0 <;> by_cases hn : n = 0
  · omega
  · exfalso
    simp only [hm, if_true, hn, if_false] at h
    have h' : (Nat.digits 10 n).map Nat.digitChar = ['0'] := by
      have := congrArg List.reverse h
      simpa using this.symm
    have hdig : Nat.digits 10 n = [0] := by
      apply mapDigitChar_inj (Nat.digits 10 n) [0]
        (fun d hd => Nat.digits_lt_base (by norm_num) hd) (by decide)
      simpa using h'
    have := Nat.ofDigits_digits 10 n
    rw [hdig] at this
    simp [Nat.ofDigits] at this
    exact hn this.symm
  · exfalso
    simp only [hn, if_true, hm, if_false] at h
    have h' : (Nat.digits 10 m).map Nat.digitChar = ['0'] := by
      have := congrArg List.reverse h
      simpa using this
    have hdig : Nat.digits 10 m = [0] := by
      apply mapDigitChar_inj (Nat.digits 10 m) [0]
        (fun d hd => Nat.digits_lt_base (by norm_num) hd) (by decide)
      simpa using h'
    have := Nat.ofDigits_digits 10 m
    rw [hdig] at this
    simp [Nat.ofDigits] at this
    exact hm this.symm
  · simp only [hm, hn, if_false] at h
    have h' : (Nat.digits 10 m).map Nat.digitChar = (Nat.digits 10 n).map Nat.digitChar := by
      have := congrArg List.reverse h
      simpa using this
    have hdig : Nat.digits 10 m = Nat.digits 10 n :=
      mapDigitChar_inj _ _ (fun d hd => Nat.digits_lt_base (by norm_num) hd)
        (fun d hd => Nat.digits_lt_base (by norm_num) hd) h'
    calc m = Nat.ofDigits 10 (Nat.digits 10 m) := (Nat.ofDigits_digits 10 m).symm
      _ = Nat.ofDigits 10 (Nat.digits 10 n) := by rw [hdig]
      _ = n := Nat.ofDigits_digits 10 n

theorem mem_intChars {c : Char} {z : ℤ} (h : c ∈ intChars z) :
    c = '-' ∨ (48 ≤ c.toNat ∧ c.toNat ≤ 57) := by
  unfold intChars at h
  by_cases hz : z < 0
  · simp [hz] at h
    rcases h with h | h
    · exact Or.inl h
    · exact Or.inr (mem_natChars_range h)
  · simp [hz] at h
    exact Or.inr (mem_natChars_range h)

theorem intChars_inj {y z : ℤ} (h : intChars y = intChars z) : y = z := by
  unfold intChars at h
  by_cases hy : y < 0 <;> by_cases hz : z < 0 <;> simp [hy, hz] at h
  · have := natChars_inj h
    omega
  · exfalso
    have : '-' ∈ natChars z.natAbs := by
      rw [← h]; exact List.mem_cons_self _ _
    exact not_mem_natChars (by decide) this
  · exfalso
    have : '-' ∈ natChars y.natAbs := by
      rw [h]; exact List.mem_cons_self _ _
    exact not_mem_natChars (by decide) this
  · have := natChars_inj h
    omega

/-- Splitting on a separator character that occurs in neither left part is
unambiguous. -/
theorem splitChar {c : Char} :
    ∀ {b1 : List Char} {b2 t1 t2 : List Char}, c ∉ b1 → c ∉ b2 →
      b1 ++ c :: t1 = b2 ++ c :: t2 → b1 = b2 ∧ t1 = t2 := by
  intro b1
  induction b1 with
  | nil =>
    intro b2 t1 t2 _ h2 heq
    cases b2 with
    | nil => simpa using heq
    | cons x b2' =>
      exfalso
      simp only [List.nil_append, List.cons_append, List.cons.injEq] at heq
      exact h2 (heq.1 ▸ List.mem_cons_self x b2')
  | cons x b1' ih =>
    intro b2 t1 t2 h1 h2 heq
    cases b2 with
    | nil =>
      exfalso
      simp only [List.nil_append, List.cons_append, List.cons.injEq] at heq
      exact h1 (heq.1.symm ▸ List.mem_cons_self x b1')
    | cons y b2' =>
      simp only [List.cons_append, List.cons.injEq] at heq
      obtain ⟨hxy, heq'⟩ := heq
      have h1' : c ∉ b1' := fun hm => h1 (List.mem_cons_of_mem _ hm)
      have h2' : c ∉ b2' := fun hm => h2 (List.mem_cons_of_mem _ hm)
      obtain ⟨hb, ht⟩ := ih h1' h2' heq'
      exact ⟨by rw [hxy, hb], ht⟩

/-- Two equal lists sharing a literal prefix cannot continue with different
characters. -/
theorem append_cons_ne {P t1 t2 : List Char} {c d : Char} (h : c ≠ d) :
    P ++ c :: t1 ≠ P ++ d :: t2 := by
  intro heq
  have := List.append_cancel_left heq
  simp only [List.cons.injEq] at this
  exact h this.1

theorem slash_not_mem_intChars {z : ℤ} : '/' ∉ intChars z := by
  intro hm
  rcases mem_intChars hm with h' | h'
  · exact absurd h' (by decide)
  · revert h'; decide

theorem ratChars_inj {p q : ℚ} (h : ratChars p = ratChars q) : p = q := by
  unfold ratChars at h
  obtain ⟨hnum, hden⟩ := splitChar slash_not_mem_intChars slash_not_mem_intChars h
  exact Rat.ext (intChars_inj hnum) (natChars_inj hden)

theorem comma_not_mem_natChars {n : ℕ} : ',' ∉ natChars n :=
  not_mem_natChars (by decide)

theorem comma_not_mem_ratChars {q : ℚ} : ',' ∉ ratChars q := by
  unfold ratChars
  intro h
  rcases List.mem_append.mp h with h | h
  · rcases mem_intChars h with h' | h' <;> simp_all
  · rcases List.mem_cons.mp h with h' | h'
    · simp_all
    · exact comma_not_mem_natChars h'

theorem newline_not_mem_natChars {n : ℕ} : '\n' ∉ natChars n :=
  not_mem_natChars (by decide)

theorem newline_not_mem_ratChars {q : ℚ} : '\n' ∉ ratChars q := by
  unfold ratChars
  intro h
  rcases List.mem_append.mp h with h | h
  · rcases mem_intChars h with h' | h' <;> simp_all
  · rcases List.mem_cons.mp h with h' | h'
    · simp_all
    · exact newline_not_mem_natChars h'

theorem quote_not_mem_natChars {n : ℕ} : '"' ∉ natChars n :=
  not_mem_natChars (by decide)

-- ===========================================================================
-- Models of deterministic float routines
-- ===========================================================================

/-- Exact rational value of the IEEE-754 double `math.pi` used by the code. -/
def piQ : ℚ := 884279719003555 / 281474976710656

theorem piQ_pos : 0 < piQ := by norm_num [piQ]

/-- Python's float `%` for a positive modulus: `a - m * ⌊a / m⌋ ∈ [0, m)`. -/
def floatMod (a m : ℚ) : ℚ := a - m * ⌊a / m⌋

theorem floatMod_nonneg {a m : ℚ} (hm : 0 < m) : 0 ≤ floatMod a m := by
  unfold floatMod
  have h := Int.floor_le (a / m)
  have : (⌊a / m⌋ : ℚ) * m ≤ a / m * m := by
    exact mul_le_mul_of_nonneg_right h (le_of_lt hm)
  rw [div_mul_cancel₀ a (ne_of_gt hm)] at this
  linarith [this]

theorem floatMod_lt {a m : ℚ} (hm : 0 < m) : floatMod a m < m := by
  unfold floatMod
  have h := Int.lt_floor_add_one (a / m)
  have : a / m * m < ((⌊a / m⌋ : ℚ) + 1) * m := by
    exact mul_lt_mul_of_pos_right h hm
  rw [div_mul_cancel₀ a (ne_of_gt hm)] at this
  linarith [this]

/-- Phase wrap used after every integration step:
`theta = (theta + math.pi) % (2 * math.pi) - math.pi`. -/
def wrapQ (x : ℚ) : ℚ := floatMod (x + piQ) (2 * piQ) - piQ

theorem wrapQ_mem (x : ℚ) : -piQ ≤ wrapQ x ∧ wrapQ x < piQ := by
  have h2 : (0:ℚ) < 2 * piQ := by norm_num [piQ]
  constructor
  · have := floatMod_nonneg (a := x + piQ) h2
    unfold wrapQ; linarith
  · have := floatMod_lt (a := x + piQ) h2
    unfold wrapQ; linarith

/-- Fixed rational surrogate for the float `np.sin` (truncated Taylor
series).  No claim constrains its pointwise values; only `sinM 0 = 0` and
congruence are used. -/
def sinM (x : ℚ) : ℚ := x - x ^ 3 / 6 + x ^ 5 / 120 - x ^ 7 / 5040

/-- Fixed rational surrogate for the float `np.cos` (truncated Taylor
series).  No claim constrains its pointwise values. -/
def cosM (x : ℚ) : ℚ := 1 - x ^ 2 / 2 + x ^ 4 / 24 - x ^ 6 / 720

theorem sinM_zero : sinM 0 = 0 := by norm_num [sinM]

/-- Fixed rational surrogate for the float square root (Newton iteration).
No claim constrains its pointwise values. -/
def sqrtM (q : ℚ) : ℚ :=
  if q ≤ 0 then 0
  else
    let x0 := (q + 1) / 2
    let x1 := (x0 + q / x0) / 2
    let x2 := (x1 + q / x1) / 2
    let x3 := (x2 + q / x2) / 2
    (x3 + q / x3) / 2

/-- Fixed rational surrogate for the float `math.log` (truncated Mercator
series around 1).  No claim constrains its pointwise values. -/
def logM (q : ℚ) : ℚ :=
  let y := q - 1
  y - y ^ 2 / 2 + y ^ 3 / 3 - y ^ 4 / 4

/-- Truncated arctangent series, used by the `np.angle` surrogate. -/
def atanS (t : ℚ) : ℚ := t - t ^ 3 / 3 + t ^ 5 / 5

/-- Fixed rational surrogate for `np.angle` (two-argument arctangent).
No claim constrains its pointwise values. -/
def atan2M (y x : ℚ) : ℚ :=
  if 0 < x then atanS (y / x)
  else if x < 0 then (if 0 ≤ y then atanS (y / x) + piQ else atanS (y / x) - piQ)
  else if 0 < y then piQ / 2
  else if y < 0 then -(piQ / 2)
  else 0

/-- Python 3 `round` to the nearest integer, ties to even. -/
def rround (q : ℚ) : ℤ :=
  let f := ⌊q⌋
  let r := q - f
  if r < 1 / 2 then f
  else if 1 / 2 < r then f + 1
  else if Even f then f else f + 1

/-- Python `round(x, 8)` as used for the logged time column. -/
def roundTo8 (q : ℚ) : ℚ := (rround (q * 10 ^ 8) : ℚ) / 10 ^ 8

-- ===========================================================================
-- Data model: configuration surface of run_simulation / build_graph
-- ===========================================================================

/-- Physics-model selector (`cfg["plugin"]`). -/
inductive Plugin | P1 | P2 | P3
deriving DecidableEq

/-- Integration scheme selector (`cfg["integrator"]`); any string other than
`"rk4"` behaves as the explicit scheme. -/
inductive Integrator | euler | rk4
deriving DecidableEq

/-- Topology selector (`cfg["topology"]`); unknown names fall back to ring,
which coincides with the `ring` tag. -/
inductive Topology | ring | fully_connected | small_world | erdos_renyi
deriving DecidableEq

/-- Phase-offset mode (`cfg["offset_mode"]`); unknown names fall back to the
zero matrix, which coincides with the `zero` tag. -/
inductive OffsetMode | chiral | random | zero
deriving DecidableEq

/-- Observer names (`cfg["observers"]`). -/
inductive Obs | O1 | O2
deriving DecidableEq

/-- Perturbation event kind. -/
inductive EvType | phase_kick | omega_kick
deriving DecidableEq

/-- Event target: a single node index or `"all"`. -/
inductive NodeSpec | all | idx (n : ℕ)
deriving DecidableEq

/-- Frequency distribution spec (`cfg["freq_dist"]`). -/
inductive FreqDist
  | lorentzian (gamma : ℚ)
  | gaussian (mean std : ℚ)
  | uniform (low high : ℚ)
  | constant
deriving DecidableEq

/-- A scheduled perturbation event (`cfg["inject_events"]` entry).  The
model carries all five keys; `duration` is only read for omega kicks. -/
structure Ev where
  time : ℚ
  etype : EvType
  node : NodeSpec
  amplitude : ℚ
  duration : ℚ
deriving DecidableEq

/-- The configuration dictionary, restricted to exactly the keys the module
reads (the recognized configuration surface of the spec). -/
structure Cfg where
  N : ℕ
  dt : ℚ
  er_p : ℚ
  eta : ℚ
  freq_dist : FreqDist
  inject_events : List Ev
  integrator : Integrator
  kappa : ℚ
  observers : List Obs
  offset_mode : OffsetMode
  phi0 : ℚ
  plugin : Plugin
  seed : ℕ
  sigma : ℚ
  sw_beta : ℚ
  sw_k : ℕ
  t_end : ℚ
  tau_m : ℚ
  topo_seed : ℕ
  topology : Topology
deriving DecidableEq

/-- Deterministic model of one `np.random.Generator`: seed-determined draw
streams, one per distribution family, consumed left to right with explicit
counters.  `uniform01` values model `rng.random()` / the uniform kernel and
lie in `[0, 1)`; `choice` models the index drawn by `rng.choice`. -/
structure RngModel where
  cauchy : ℕ → ℚ
  normal : ℕ → ℚ
  uniform01 : ℕ → ℚ
  choice : ℕ → ℕ

/-- Seed-indexed family of generators: `genOf seed` models
`np.random.default_rng(seed)`.  Feeding the same seed twice replays the
same streams, exactly as NumPy's deterministic PRNG does. -/
def RngFamily : Type := ℕ → RngModel

-- ===========================================================================
-- Graph layer — topology builders
-- ===========================================================================

/-- Ring graph (`build_ring`): both neighbour writes, last write wins; for
N ≤ 2 the two writes land on the same cell. -/
def buildRing (N : ℕ) (w : ℚ) : ℕ → ℕ → ℚ := fun i j =>
  if i < N ∧ j < N ∧ (j = (i + 1) % N ∨ j = (i + (N - 1)) % N) then w else 0

/-- Draw index of the unordered pair (a, b), a < b, in the row-major order
used by the `build_erdos_renyi` loops. -/
def pairIdx (N a b : ℕ) : ℕ :=
  (∑ r ∈ Finset.range a, (N - 1 - r)) + (b - a - 1)

/-- Erdős–Rényi graph (`build_erdos_renyi`): each unordered pair gets one
`rng.random()` draw; both symmetric entries are set when the draw is < p. -/
def buildER (N : ℕ) (p : ℚ) (u : ℕ → ℚ) : ℕ → ℕ → ℚ := fun i j =>
  if i < N ∧ j < N ∧ i ≠ j ∧ u (pairIdx N (min i j) (max i j)) < p then 1 else 0

/-- Circular distance used to characterise the initial ring lattice of
`build_small_world`. -/
def ringDist (N i j : ℕ) : ℕ := min ((j + N - i % N) % N) ((i + N - j % N) % N)

/-- Initial ring lattice of degree k (`build_small_world`, first loop). -/
def swLattice (N k : ℕ) : ℕ → ℕ → ℚ := fun i j =>
  if i < N ∧ j < N ∧ 1 ≤ ringDist N i j ∧ ringDist N i j ≤ k / 2 then 1 else 0

/-- Symmetric assignment `A[i,j] = A[j,i] = v`. -/
def setSym (A : ℕ → ℕ → ℚ) (i j : ℕ) (v : ℚ) : ℕ → ℕ → ℚ := fun a b =>
  if (a = i ∧ b = j) ∨ (a = j ∧ b = i) then v else A a b

/-- One rewiring trial of `build_small_world` for lattice edge (i, i+d);
consumes one uniform draw, and one choice draw when it fires. -/
def swRewireOne (N : ℕ) (beta : ℚ) (u : ℕ → ℚ) (ch : ℕ → ℕ)
    (st : (ℕ → ℕ → ℚ) × ℕ × ℕ) (i d : ℕ) : (ℕ → ℕ → ℚ) × ℕ × ℕ :=
  let A := st.1
  let cu := st.2.1
  let cc := st.2.2
  if u cu < beta then
    let jOld := (i + d) % N
    let cands := (List.range N).filter (fun m => decide (m ≠ i ∧ A i m = 0))
    match cands with
    | [] => (A, cu + 1, cc)
    | c0 :: _ =>
      let jNew := cands.getD (ch cc % cands.length) c0
      (setSym (setSym A i jOld 0) i jNew 1, cu + 1, cc + 1)
  else (A, cu + 1, cc)

/-- The (i, d) pairs visited by the rewiring loops, in program order. -/
def swPairs (N k : ℕ) : List (ℕ × ℕ) :=
  (List.range N).flatMap fun i => (List.range (k / 2)).map fun d0 => (i, d0 + 1)

/-- Watts–Strogatz graph (`build_small_world`). -/
def buildSmallWorld (N k : ℕ) (beta : ℚ) (u : ℕ → ℚ) (ch : ℕ → ℕ) :
    ℕ → ℕ → ℚ :=
  (swPairs N k |>.foldl (fun st p => swRewireOne N beta u ch st p.1 p.2)
    (swLattice N k, 0, 0)).1

/-- Phase-offset matrix for a ring (`build_phase_offsets_ring`).  In chiral
mode the backward write happens second and therefore wins when forward and
backward neighbour coincide (N ≤ 2); in random mode each ordered off-
diagonal entry consumes one `uniform(-phi0, phi0)` draw, row-major, from a
fresh `default_rng(0)` generator. -/
def buildPhaseOffsetsRing (N : ℕ) (phi0 : ℚ) (mode : OffsetMode)
    (u : ℕ → ℚ) : ℕ → ℕ → ℚ :=
  match mode with
  | .chiral => fun i j =>
      if i < N ∧ j < N then
        (if j = (i + (N - 1)) % N then -phi0
         else if j = (i + 1) % N then phi0 else 0)
      else 0
  | .random => fun i j =>
      if i < N ∧ j < N ∧ i ≠ j then
        -phi0 + 2 * phi0 * u (i * (N - 1) + (if j < i then j else j - 1))
      else 0
  | .zero => fun _ _ => 0

/-- `build_graph`: (A, phi) from the topology config.  The topology RNG is
`default_rng(cfg["topo_seed"])`; the random-offset RNG is `default_rng(0)`. -/
def buildGraph (genOf : RngFamily) (cfg : Cfg) : (ℕ → ℕ → ℚ) × (ℕ → ℕ → ℚ) :=
  let N := cfg.N
  let A : ℕ → ℕ → ℚ :=
    match cfg.topology with
    | .ring => buildRing N 1
    | .fully_connected => fun i j =>
        if i < N ∧ j < N ∧ i ≠ j then 1 / ((N : ℚ) - 1) else 0
    | .small_world =>
        buildSmallWorld N cfg.sw_k cfg.sw_beta (genOf cfg.topo_seed).uniform01
          (genOf cfg.topo_seed).choice
    | .erdos_renyi => buildER N cfg.er_p (genOf cfg.topo_seed).uniform01
  (A, buildPhaseOffsetsRing N cfg.phi0 cfg.offset_mode (genOf 0).uniform01)

-- ===========================================================================
-- Frequency sampler
-- ===========================================================================

/-- `sample_frequencies`: N natural frequencies from the requested
distribution, drawn from the run generator. -/
def sampleFrequencies (N : ℕ) (dist : FreqDist) (g : RngModel) : ℕ → ℚ :=
  match dist with
  | .lorentzian gamma => fun i => if i < N then g.cauchy i * gamma else 0
  | .gaussian mean std => fun i => if i < N then mean + std * g.normal i else 0
  | .uniform low high => fun i => if i < N then low + (high - low) * g.uniform01 i else 0
  | .constant => fun _ => 0

/-- Number of draws `sample_frequencies` consumes from each stream
(cauchy, normal, uniform01), for subsequent counter offsets. -/
def freqDraws (N : ℕ) (dist : FreqDist) : ℕ × ℕ × ℕ :=
  match dist with
  | .lorentzian _ => (N, 0, 0)
  | .gaussian _ _ => (0, N, 0)
  | .uniform _ _ => (0, 0, N)
  | .constant => (0, 0, 0)

-- ===========================================================================
-- Physics plugins
-- ===========================================================================

/-- Pairwise Kuramoto coupling sum Sᵢ = Σⱼ Aᵢⱼ sin(θⱼ − θᵢ). -/
def couplingSum (N : ℕ) (A : ℕ → ℕ → ℚ) (theta : ℕ → ℚ) (i : ℕ) : ℚ :=
  ∑ j ∈ Finset.range N, A i j * sinM (theta j - theta i)

/-- P1 — Kuramoto baseline (`physics_p1`).  `noise i` is the i-th standard
normal drawn by this call; it is only consumed when sigma > 0. -/
def physicsP1 (N : ℕ) (theta omega : ℕ → ℚ) (A _phi : ℕ → ℕ → ℚ)
    (kappa sigma : ℚ) (noise : ℕ → ℚ) : ℕ → ℚ := fun i =>
  omega i + kappa * couplingSum N A theta i +
    (if 0 < sigma then sigma * noise i else 0)

/-- P2 — exponential memory kernel (`physics_p2`): returns (dtheta, dmemory). -/
def physicsP2 (N : ℕ) (theta omega memory : ℕ → ℚ) (A _phi : ℕ → ℕ → ℚ)
    (kappa eta tau_m sigma : ℚ) (noise : ℕ → ℚ) : (ℕ → ℚ) × (ℕ → ℚ) :=
  (fun i => omega i + kappa * couplingSum N A theta i + eta * memory i +
      (if 0 < sigma then sigma * noise i else 0),
   fun i => -memory i / tau_m + couplingSum N A theta i)

/-- P3 — phase-offset (chiral) coupling (`physics_p3`). -/
def physicsP3 (N : ℕ) (theta omega : ℕ → ℚ) (A phi : ℕ → ℕ → ℚ)
    (kappa sigma : ℚ) (noise : ℕ → ℚ) : ℕ → ℚ := fun i =>
  omega i + kappa * (∑ j ∈ Finset.range N, A i j * sinM (theta j - theta i + phi i j)) +
    (if 0 < sigma then sigma * noise i else 0)

/-- RK4 step for P1 with noise forced off (`_rk4_step_p1`). -/
def rk4StepP1 (N : ℕ) (theta omega : ℕ → ℚ) (A phi : ℕ → ℕ → ℚ)
    (kappa dt : ℚ) : ℕ → ℚ :=
  let f := fun th => physicsP1 N th omega A phi kappa 0 (fun _ => 0)
  let k1 := f theta
  let k2 := f (fun i => theta i + dt / 2 * k1 i)
  let k3 := f (fun i => theta i + dt / 2 * k2 i)
  let k4 := f (fun i => theta i + dt * k3 i)
  fun i => theta i + dt / 6 * (k1 i + 2 * k2 i + 2 * k3 i + k4 i)

-- ===========================================================================
-- Observers
-- ===========================================================================

/-- O1 — synchronisation order parameter (`observer_o1`): (R, psi,
sigma_theta) of the current phase vector. -/
def observerO1 (N : ℕ) (theta : ℕ → ℚ) : ℚ × ℚ × ℚ :=
  let x := (∑ j ∈ Finset.range N, cosM (theta j)) / N
  let y := (∑ j ∈ Finset.range N, sinM (theta j)) / N
  let R := sqrtM (x ^ 2 + y ^ 2)
  (R, atan2M y x, sqrtM (max (-2 * logM (max R (1 / 10 ^ 12))) 0))

/-- Arithmetic mean (`np.mean`) of a rational list; the empty list maps to
0 (the code never takes the mean of an empty slice when window ≥ 1). -/
def listMean (l : List ℚ) : ℚ := l.sum / l.length

/-- O2 — instability functional (`observer_o2`). -/
def observerO2 (history : List ℚ) (window : ℕ) : ℚ :=
  let n := history.length
  if n < window + 1 then 0
  else
    let baseline := listMean ((history.drop (n - window - 1)).take window)
    if baseline < 1 / 10 ^ 9 then 0
    else |history.getLastD 0 - baseline| / baseline

-- ===========================================================================
-- Run loop (run_simulation)
-- ===========================================================================

/-- One per-step metrics row {t, R, psi, sigma_theta, delta_phi}. -/
structure Row where
  t : ℚ
  R : ℚ
  psi : ℚ
  sigma_theta : ℚ
  delta_phi : ℚ
deriving DecidableEq

/-- One triggered-event log entry (events.jsonl line).  `duration` is
present only for omega kicks, mirroring the logged dict's keys. -/
structure LogEv where
  t : ℚ
  etype : EvType
  nodes : List ℕ
  amplitude : ℚ
  duration : Option ℚ
deriving DecidableEq

/-- The run summary block. -/
structure Summary where
  mean_R_final : ℚ
  se_R_final : ℚ
  settling_time : Option ℚ
  n_steps : ℕ
  t_end_actual : ℚ
  N : ℕ
  plugin : Plugin
  kappa : ℚ
  seed : ℕ
deriving DecidableEq

/-- The value returned by `run_simulation`. -/
structure SimResult where
  config : Cfg
  metrics : List Row
  events : List LogEv
  summary : Summary
deriving DecidableEq

/-- Per-run immutable context assembled at INIT. -/
structure Ctx where
  N : ℕ
  dt : ℚ
  kappa : ℚ
  sigma : ℚ
  eta : ℚ
  tau_m : ℚ
  plugin : Plugin
  integrator : Integrator
  observers : List Obs
  A : ℕ → ℕ → ℚ
  phiOff : ℕ → ℕ → ℚ
  omegaOriginal : ℕ → ℚ
  noiseAt : ℕ → ℕ → ℚ

/-- Mutable per-step state of the integration loop. -/
structure SimState where
  theta : ℕ → ℚ
  memory : ℕ → ℚ
  omega : ℕ → ℚ
  kickEnds : ℕ → Option ℚ
  pending : List Ev
  log : List LogEv
  histR : List ℚ
  rows : List Row

/-- Nodes targeted by an event (`list(range(N))` for "all"). -/
def evTargets (N : ℕ) : NodeSpec → List ℕ
  | .all => List.range N
  | .idx n => [n]

/-- Apply one consumed event to the state at step time t.  An out-of-range
single-node index faults in the reference code; the functional model simply
writes the (unread) coordinate. -/
def applyOneEvent (ctx : Ctx) (t : ℚ) (ev : Ev) (s : SimState) : SimState :=
  let targets := evTargets ctx.N ev.node
  match ev.etype with
  | .phase_kick =>
      { s with
        theta := targets.foldl (fun th ni => fun i =>
          if i = ni then th i + ev.amplitude else th i) s.theta,
        log := s.log ++ [⟨t, .phase_kick, targets, ev.amplitude, none⟩] }
  | .omega_kick =>
      { s with
        omega := targets.foldl (fun om ni => fun i =>
          if i = ni then ctx.omegaOriginal ni + ev.amplitude else om i) s.omega,
        kickEnds := targets.foldl (fun ke ni => fun i =>
          if i = ni then some (t + ev.duration) else ke i) s.kickEnds,
        log := s.log ++ [⟨t, .omega_kick, targets, ev.amplitude, some ev.duration⟩] }

/-- The event-consumption while loop: every still-pending event whose time
is ≤ t + dt/2 is applied, in order; the first later event stops the scan. -/
def applyEventsAux (ctx : Ctx) (t : ℚ) : List Ev → SimState → SimState
  | [], s => { s with pending := [] }
  | ev :: rest, s =>
      if t + ctx.dt * (1 / 2) < ev.time then { s with pending := ev :: rest }
      else applyEventsAux ctx t rest (applyOneEvent ctx t ev s)

/-- Perturbation phase of one step. -/
def applyEventsPhase (ctx : Ctx) (t : ℚ) (s : SimState) : SimState :=
  applyEventsAux ctx t s.pending s

/-- Expiry phase: every kick whose recorded end time has been reached is
restored to the original frequency and its record removed. -/
def expireKicksPhase (ctx : Ctx) (t : ℚ) (s : SimState) : SimState :=
  { s with
    omega := fun i =>
      match s.kickEnds i with
      | some e => if e ≤ t then ctx.omegaOriginal i else s.omega i
      | none => s.omega i,
    kickEnds := fun i =>
      match s.kickEnds i with
      | some e => if e ≤ t then none else some e
      | none => none }

/-- Physics + integration + phase-wrap phase of one step. -/
def physicsPhase (ctx : Ctx) (step : ℕ) (s : SimState) : SimState :=
  let noise := ctx.noiseAt step
  match ctx.plugin with
  | .P1 =>
      if ctx.integrator = .rk4 ∧ ctx.sigma = 0 then
        { s with theta := fun i =>
            wrapQ (rk4StepP1 ctx.N s.theta s.omega ctx.A ctx.phiOff ctx.kappa ctx.dt i) }
      else
        let dth := physicsP1 ctx.N s.theta s.omega ctx.A ctx.phiOff ctx.kappa ctx.sigma noise
        { s with theta := fun i => wrapQ (s.theta i + ctx.dt * dth i) }
  | .P2 =>
      let pr := physicsP2 ctx.N s.theta s.omega s.memory ctx.A ctx.phiOff
        ctx.kappa ctx.eta ctx.tau_m ctx.sigma noise
      { s with
        theta := fun i => wrapQ (s.theta i + ctx.dt * pr.1 i),
        memory := fun i => s.memory i + ctx.dt * pr.2 i }
  | .P3 =>
      let dth := physicsP3 ctx.N s.theta s.omega ctx.A ctx.phiOff ctx.kappa ctx.sigma noise
      { s with theta := fun i => wrapQ (s.theta i + ctx.dt * dth i) }

/-- Observer phase of one step: appends to the R history and the metrics
rows; a disabled observer reports neutral zeros. -/
def observersPhase (ctx : Ctx) (step : ℕ) (s : SimState) : SimState :=
  let tcol := roundTo8 ((step : ℚ) * ctx.dt + ctx.dt)
  if Obs.O1 ∈ ctx.observers then
    let o1 := observerO1 ctx.N s.theta
    let hist := s.histR ++ [o1.1]
    let dphi := if Obs.O2 ∈ ctx.observers then observerO2 hist 10 else 0
    { s with histR := hist, rows := s.rows ++ [⟨tcol, o1.1, o1.2.1, o1.2.2, dphi⟩] }
  else
    let hist := s.histR ++ [(0 : ℚ)]
    let dphi := if Obs.O2 ∈ ctx.observers then observerO2 hist 10 else 0
    { s with histR := hist, rows := s.rows ++ [⟨tcol, 0, 0, 0, dphi⟩] }

/-- One full integration step, in program order: scheduled perturbations,
kick expiry, physics + integration + wrap, observers. -/
def stepFn (ctx : Ctx) (step : ℕ) (s : SimState) : SimState :=
  observersPhase ctx step
    (physicsPhase ctx step
      (expireKicksPhase ctx ((step : ℚ) * ctx.dt)
        (applyEventsPhase ctx ((step : ℚ) * ctx.dt) s)))

/-- Stable insertion of an event into an ascending-by-time list (models the
stability of Python's `sorted`). -/
def insertByTime (e : Ev) : List Ev → List Ev
  | [] => [e]
  | x :: xs => if x.time ≤ e.time then x :: insertByTime e xs else e :: x :: xs

/-- `sorted(inject_events, key=lambda e: e["time"])`. -/
def sortByTime (l : List Ev) : List Ev :=
  l.foldl (fun acc e => insertByTime e acc) []

/-- Step count `int(round(t_end / dt))` (Python 3 `round`, ties to even). -/
def nSteps (cfg : Cfg) : ℕ := (rround (cfg.t_end / cfg.dt)).toNat

/-- INIT phase: draw frequencies, draw initial phases, build the graph,
zero memory, sort the event queue.  Draw-stream counters follow the
sequential consumption of `default_rng(seed)`. -/
def initSim (genOf : RngFamily) (cfg : Cfg) : Ctx × SimState :=
  let g := genOf cfg.seed
  let omega := sampleFrequencies cfg.N cfg.freq_dist g
  let d := freqDraws cfg.N cfg.freq_dist
  let theta0 : ℕ → ℚ := fun i =>
    if i < cfg.N then -piQ + (piQ - -piQ) * g.uniform01 (d.2.2 + i) else 0
  let G := buildGraph genOf cfg
  (⟨cfg.N, cfg.dt, cfg.kappa, cfg.sigma, cfg.eta, cfg.tau_m, cfg.plugin,
    cfg.integrator, cfg.observers, G.1, G.2, omega,
    fun step i => g.normal (d.2.1 + step * cfg.N + i)⟩,
   ⟨theta0, fun _ => 0, omega, fun _ => none, sortByTime cfg.inject_events,
    [], [], []⟩)

/-- State after k integration steps. -/
def simStateAt (genOf : RngFamily) (cfg : Cfg) : ℕ → SimState
  | 0 => (initSim genOf cfg).2
  | k + 1 => stepFn (initSim genOf cfg).1 k (simStateAt genOf cfg k)

/-- Population standard deviation (`np.std`); the empty list maps to 0
(reached only for zero-step runs, where NumPy would produce NaN). -/
def listStd (l : List ℚ) : ℚ :=
  sqrtM (listMean (l.map (fun x => (x - listMean l) ^ 2)))

/-- First row whose R exceeds the 0.9 lock-in threshold. -/
def settlingTime : List Row → Option ℚ
  | [] => none
  | r :: rest => if 9 / 10 < r.R then some r.t else settlingTime rest

/-- FINALIZE phase: summary over the final 20% of rows. -/
def mkSummary (cfg : Cfg) (rows : List Row) : Summary :=
  let start := 4 * rows.length / 5
  let finalR := (rows.drop start).map Row.R
  ⟨(if finalR = [] then 0 else listMean finalR),
   listStd finalR / sqrtM (max finalR.length 1),
   settlingTime rows, nSteps cfg, roundTo8 ((nSteps cfg : ℚ) * cfg.dt),
   cfg.N, cfg.plugin, cfg.kappa, cfg.seed⟩

/-- `run_simulation(cfg)`: run the loop and assemble the result record. -/
def runSimulation (genOf : RngFamily) (cfg : Cfg) : SimResult :=
  let fin := simStateAt genOf cfg (nSteps cfg)
  ⟨cfg, fin.rows, fin.log, mkSummary cfg fin.rows⟩

-- ===========================================================================
-- Artifact bundle serialization (build_artifact_bundle)
-- ===========================================================================

/-- JSON form of a plugin tag. -/
def pluginChars : Plugin → List Char
  | .P1 => "\"P1\"".data
  | .P2 => "\"P2\"".data
  | .P3 => "\"P3\"".data

/-- JSON form of an integrator tag. -/
def integratorChars : Integrator → List Char
  | .euler => "\"euler\"".data
  | .rk4 => "\"rk4\"".data

/-- JSON form of a topology tag. -/
def topologyChars : Topology → List Char
  | .ring => "\"ring\"".data
  | .fully_connected => "\"fully_connected\"".data
  | .small_world => "\"small_world\"".data
  | .erdos_renyi => "\"erdos_renyi\"".data

/-- JSON form of an offset-mode tag. -/
def offsetModeChars : OffsetMode → List Char
  | .chiral => "\"chiral\"".data
  | .random => "\"random\"".data
  | .zero => "\"zero\"".data

/-- JSON form of an observer name. -/
def obsQuote : Obs → List Char
  | .O1 => "\"O1\"".data
  | .O2 => "\"O2\"".data

/-- JSON form of an event kind. -/
def etChars : EvType → List Char
  | .phase_kick => "\"phase_kick\"".data
  | .omega_kick => "\"omega_kick\"".data

/-- JSON form of an event target. -/
def nodeChars : NodeSpec → List Char
  | .all => "\"all\"".data
  | .idx n => natChars n

/-- Shared opening of a depth-1 JSON object under indent=2. -/
def jsonObjOpen : List Char := "\x7b\n    \"".data

/-- `json.dumps(freq_dist, indent=2, sort_keys=True)` at depth 1. -/
def fdChars : FreqDist → List Char
  | .lorentzian g =>
      jsonObjOpen ++ 'g' :: "amma\": ".data ++ ratChars g ++
        ',' :: "\n    \"type\": \"lorentzian\"\n  \x7d".data
  | .gaussian m s =>
      jsonObjOpen ++ 'm' :: "ean\": ".data ++ ratChars m ++
        ',' :: "\n    \"std\": ".data ++ ratChars s ++
        ',' :: "\n    \"type\": \"gaussian\"\n  \x7d".data
  | .uniform lo hi =>
      jsonObjOpen ++ 'h' :: "igh\": ".data ++ ratChars hi ++
        ',' :: "\n    \"low\": ".data ++ ratChars lo ++
        ',' :: "\n    \"type\": \"uniform\"\n  \x7d".data
  | .constant =>
      jsonObjOpen ++ 't' :: "ype\": \"constant\"\n  \x7d".data

/-- Items of the observers JSON array (nonempty case), indent=2 depth 1. -/
def obsItems : Obs → List Obs → List Char
  | x, [] => obsQuote x ++ '\n' :: "  ]".data
  | x, y :: ys => obsQuote x ++ ',' :: "\n    ".data ++ obsItems y ys

/-- `json.dumps(observers, indent=2)` at depth 1. -/
def obsChars : List Obs → List Char
  | [] => '[' :: ']' :: []
  | x :: xs => '[' :: '\n' :: "    ".data ++ obsItems x xs

/-- `json.dumps` of one inject_events entry at depth 2 (sorted keys). -/
def evChars (e : Ev) : List Char :=
  "\x7b\n      \"amplitude\": ".data ++ ratChars e.amplitude ++
    ',' :: "\n      \"duration\": ".data ++ ratChars e.duration ++
    ',' :: "\n      \"node\": ".data ++ nodeChars e.node ++
    ',' :: "\n      \"time\": ".data ++ ratChars e.time ++
    ',' :: "\n      \"type\": ".data ++ etChars e.etype ++
    '\n' :: "    \x7d".data

/-- Items of the inject_events JSON array (nonempty case). -/
def evItems : Ev → List Ev → List Char
  | e, [] => evChars e ++ '\n' :: "  ]".data
  | e, f :: fs => evChars e ++ ',' :: "\n    ".data ++ evItems f fs

/-- `json.dumps(inject_events, indent=2)` at depth 1. -/
def evListChars : List Ev → List Char
  | [] => '[' :: ']' :: []
  | e :: es => '[' :: '\n' :: "    ".data ++ evItems e es

/-- `config.json`: `json.dumps(cfg, indent=2, sort_keys=True)` over the
recognized configuration surface, keys in sorted order. -/
def configChars (cfg : Cfg) : List Char :=
  "\x7b\n  \"N\": ".data ++ natChars cfg.N ++
    ',' :: "\n  \"dt\": ".data ++ ratChars cfg.dt ++
    ',' :: "\n  \"er_p\": ".data ++ ratChars cfg.er_p ++
    ',' :: "\n  \"eta\": ".data ++ ratChars cfg.eta ++
    ',' :: "\n  \"freq_dist\": ".data ++ fdChars cfg.freq_dist ++
    ',' :: "\n  \"inject_events\": ".data ++ evListChars cfg.inject_events ++
    ',' :: "\n  \"integrator\": ".data ++ integratorChars cfg.integrator ++
    ',' :: "\n  \"kappa\": ".data ++ ratChars cfg.kappa ++
    ',' :: "\n  \"observers\": ".data ++ obsChars cfg.observers ++
    ',' :: "\n  \"offset_mode\": ".data ++ offsetModeChars cfg.offset_mode ++
    ',' :: "\n  \"phi0\": ".data ++ ratChars cfg.phi0 ++
    ',' :: "\n  \"plugin\": ".data ++ pluginChars cfg.plugin ++
    ',' :: "\n  \"seed\": ".data ++ natChars cfg.seed ++
    ',' :: "\n  \"sigma\": ".data ++ ratChars cfg.sigma ++
    ',' :: "\n  \"sw_beta\": ".data ++ ratChars cfg.sw_beta ++
    ',' :: "\n  \"sw_k\": ".data ++ natChars cfg.sw_k ++
    ',' :: "\n  \"t_end\": ".data ++ ratChars cfg.t_end ++
    ',' :: "\n  \"tau_m\": ".data ++ ratChars cfg.tau_m ++
    ',' :: "\n  \"topo_seed\": ".data ++ natChars cfg.topo_seed ++
    ',' :: "\n  \"topology\": ".data ++ topologyChars cfg.topology ++
    '\n' :: "\x7d".data

/-- One row of `metrics.csv` (csv module line terminator is CRLF). -/
def rowChars (r : Row) : List Char :=
  ratChars r.t ++ ',' :: ratChars r.R ++ ',' :: ratChars r.psi ++
    ',' :: ratChars r.sigma_theta ++ ',' :: ratChars r.delta_phi ++ "\r\n".data

/-- `metrics.csv`: header + rows; an empty metrics list writes nothing. -/
def metricsCsvChars : List Row → List Char
  | [] => []
  | rows => "t,R,psi,sigma_theta,delta_phi\r\n".data ++ rows.flatMap rowChars

/-- Compact JSON form of a logged node list (`[0, 1]`). -/
def natListChars : List ℕ → List Char
  | [] => '[' :: ']' :: []
  | n :: ns =>
      '[' :: (natChars n ++ ns.flatMap (fun m => ',' :: ' ' :: natChars m) ++ (']' :: []))

/-- Compact `json.dumps` of one triggered-event log entry, insertion-order
keys (t, type, nodes, amplitude[, duration]). -/
def logEvChars (e : LogEv) : List Char :=
  "\x7b\"t\": ".data ++ ratChars e.t ++
    ", \"type\": ".data ++ etChars e.etype ++
    ", \"nodes\": ".data ++ natListChars e.nodes ++
    ", \"amplitude\": ".data ++ ratChars e.amplitude ++
    (match e.duration with
     | none => []
     | some d => ", \"duration\": ".data ++ ratChars d) ++
    "\x7d".data

/-- `events.jsonl`: one compact JSON object per line, newline separated. -/
def eventsJsonlChars : List LogEv → List Char
  | [] => []
  | e :: es => logEvChars e ++ es.flatMap (fun f => '\n' :: logEvChars f)

/-- The four-file artifact bundle.  `hashTxt` is the SHA-256 model: the
exact byte stream `config ++ metrics ++ events` fed to the hasher, so that
model-hash equality/difference mirrors digest equality/collision-freeness. -/
structure Bundle where
  configJson : List Char
  metricsCsv : List Char
  eventsJsonl : List Char
  hashTxt : List Char
deriving DecidableEq

/-- `build_artifact_bundle(result)`. -/
def buildArtifactBundle (r : SimResult) : Bundle :=
  ⟨configChars r.config, metricsCsvChars r.metrics, eventsJsonlChars r.events,
   configChars r.config ++ (metricsCsvChars r.metrics ++ eventsJsonlChars r.events)⟩

/-- The hashed byte stream of a run result. -/
def hashInput (r : SimResult) : List Char := (buildArtifactBundle r).hashTxt

-- ===========================================================================
-- Serialization determinacy lemmas
-- ===========================================================================

/-- Two-separator splitting lemma: if neither side's prefix may contain
either separator, prefix, separator and tail all agree. -/
theorem splitChar2 {c d : Char} :
    ∀ {b1 : List Char} {b2 t1 t2 : List Char},
      c ∉ b1 → d ∉ b1 → c ∉ b2 → d ∉ b2 →
      b1 ++ c :: t1 = b2 ++ d :: t2 → b1 = b2 ∧ c = d ∧ t1 = t2 := by
  intro b1
  induction b1 with
  | nil =>
    intro b2 t1 t2 _ _ hc2 _ heq
    cases b2 with
    | nil =>
      simp only [List.nil_append, List.cons.injEq] at heq
      exact ⟨rfl, heq.1, heq.2⟩
    | cons y b2' =>
      exfalso
      simp only [List.nil_append, List.cons_append, List.cons.injEq] at heq
      exact hc2 (heq.1 ▸ List.mem_cons_self y b2')
  | cons x b1' ih =>
    intro b2 t1 t2 hc1 hd1 hc2 hd2 heq
    cases b2 with
    | nil =>
      exfalso
      simp only [List.nil_append, List.cons_append, List.cons.injEq] at heq
      exact hd1 (heq.1.symm ▸ List.mem_cons_self x b1')
    | cons y b2' =>
      simp only [List.cons_append, List.cons.injEq] at heq
      obtain ⟨hxy, heq'⟩ := heq
      obtain ⟨hb, hcd, ht⟩ := ih (fun hm => hc1 (List.mem_cons_of_mem _ hm))
        (fun hm => hd1 (List.mem_cons_of_mem _ hm))
        (fun hm => hc2 (List.mem_cons_of_mem _ hm))
        (fun hm => hd2 (List.mem_cons_of_mem _ hm)) heq'
      exact ⟨by rw [hxy, hb], hcd, ht⟩

theorem ratSplit {q1 q2 : ℚ} {t1 t2 : List Char}
    (h : ratChars q1 ++ ',' :: t1 = ratChars q2 ++ ',' :: t2) :
    q1 = q2 ∧ t1 = t2 :=
  let p := splitChar comma_not_mem_ratChars comma_not_mem_ratChars h
  ⟨ratChars_inj p.1, p.2⟩

theorem natSplit {m n : ℕ} {t1 t2 : List Char}
    (h : natChars m ++ ',' :: t1 = natChars n ++ ',' :: t2) :
    m = n ∧ t1 = t2 :=
  let p := splitChar comma_not_mem_natChars comma_not_mem_natChars h
  ⟨natChars_inj p.1, p.2⟩

theorem comma_not_mem_pluginChars {p : Plugin} : ',' ∉ pluginChars p := by
  cases p <;> decide

theorem comma_not_mem_integratorChars {g : Integrator} : ',' ∉ integratorChars g := by
  cases g <;> decide

theorem comma_not_mem_offsetModeChars {m : OffsetMode} : ',' ∉ offsetModeChars m := by
  cases m <;> decide

theorem newline_not_mem_topologyChars {t : Topology} : '\n' ∉ topologyChars t := by
  cases t <;> decide

theorem comma_not_mem_nodeChars {n : NodeSpec} : ',' ∉ nodeChars n := by
  cases n with
  | all => decide
  | idx m => exact comma_not_mem_natChars

theorem newline_not_mem_etChars {e : EvType} : '\n' ∉ etChars e := by
  cases e <;> decide

theorem pluginChars_inj {a b : Plugin} (h : pluginChars a = pluginChars b) : a = b := by
  cases a <;> cases b <;> first | rfl | exact absurd h (by decide)

theorem integratorChars_inj {a b : Integrator}
    (h : integratorChars a = integratorChars b) : a = b := by
  cases a <;> cases b <;> first | rfl | exact absurd h (by decide)

theorem topologyChars_inj {a b : Topology}
    (h : topologyChars a = topologyChars b) : a = b := by
  cases a <;> cases b <;> first | rfl | exact absurd h (by decide)

theorem offsetModeChars_inj {a b : OffsetMode}
    (h : offsetModeChars a = offsetModeChars b) : a = b := by
  cases a <;> cases b <;> first | rfl | exact absurd h (by decide)

theorem nodeChars_inj {a b : NodeSpec} (h : nodeChars a = nodeChars b) : a = b := by
  cases a <;> cases b
  · rfl
  · exfalso
    rename_i n
    have : '"' ∈ nodeChars (NodeSpec.idx n) := by
      rw [← h]; decide
    exact quote_not_mem_natChars this
  · exfalso
    rename_i n
    have : '"' ∈ nodeChars (NodeSpec.idx n) := by
      rw [h]; decide
    exact quote_not_mem_natChars this
  · exact congrArg NodeSpec.idx (natChars_inj h)

theorem etChars_inj {a b : EvType} (h : etChars a = etChars b) : a = b := by
  cases a <;> cases b <;> first | rfl | exact absurd h (by decide)

theorem fdDet {d1 d2 : FreqDist} {r1 r2 : List Char}
    (e : fdChars d1 ++ r1 = fdChars d2 ++ r2) : d1 = d2 ∧ r1 = r2 := by
  cases d1 <;> cases d2 <;> simp only [fdChars, jsonObjOpen] at e <;> simp at e
  · obtain ⟨hg, ht⟩ := ratSplit e
    simp at ht
    exact ⟨by rw [hg], ht⟩
  · obtain ⟨hm, ht⟩ := ratSplit e
    simp at ht
    obtain ⟨hs, ht2⟩ := ratSplit ht
    simp at ht2
    exact ⟨by rw [hm, hs], ht2⟩
  · obtain ⟨hhi, ht⟩ := ratSplit e
    simp at ht
    obtain ⟨hlo, ht2⟩ := ratSplit ht
    simp at ht2
    exact ⟨by rw [hhi, hlo], ht2⟩
  · exact ⟨rfl, e⟩

theorem comma_not_mem_obsQuote {o : Obs} : ',' ∉ obsQuote o := by
  cases o <;> decide

theorem newline_not_mem_obsQuote {o : Obs} : '\n' ∉ obsQuote o := by
  cases o <;> decide

theorem obsQuote_inj {a b : Obs} (h : obsQuote a = obsQuote b) : a = b := by
  cases a <;> cases b <;> first | rfl | exact absurd h (by decide)

theorem obsItemsDet :
    ∀ {xs : List Obs} {x : Obs} {ys : List Obs} {y : Obs} {r1 r2 : List Char},
      obsItems x xs ++ r1 = obsItems y ys ++ r2 → x = y ∧ xs = ys ∧ r1 = r2 := by
  intro xs
  induction xs with
  | nil =>
    intro x ys y r1 r2 e
    cases ys with
    | nil =>
      simp only [obsItems] at e
      simp at e
      obtain ⟨hq, ht⟩ := splitChar newline_not_mem_obsQuote newline_not_mem_obsQuote e
      simp at ht
      exact ⟨obsQuote_inj hq, rfl, ht⟩
    | cons z zs =>
      exfalso
      simp only [obsItems] at e
      simp at e
      obtain ⟨_, hcd, _⟩ := splitChar2 newline_not_mem_obsQuote comma_not_mem_obsQuote
        newline_not_mem_obsQuote comma_not_mem_obsQuote e
      exact absurd hcd (by decide)
  | cons z zs ih =>
    intro x ys y r1 r2 e
    cases ys with
    | nil =>
      exfalso
      simp only [obsItems] at e
      simp at e
      obtain ⟨_, hcd, _⟩ := splitChar2 comma_not_mem_obsQuote newline_not_mem_obsQuote
        comma_not_mem_obsQuote newline_not_mem_obsQuote e
      exact absurd hcd (by decide)
    | cons w ws =>
      simp only [obsItems] at e
      simp at e
      obtain ⟨hq, ht⟩ := splitChar comma_not_mem_obsQuote comma_not_mem_obsQuote e
      simp at ht
      obtain ⟨h1, h2, h3⟩ := ih ht
      exact ⟨obsQuote_inj hq, by rw [h1, h2], h3⟩

theorem obsDet {l1 l2 : List Obs} {r1 r2 : List Char}
    (e : obsChars l1 ++ r1 = obsChars l2 ++ r2) : l1 = l2 ∧ r1 = r2 := by
  cases l1 <;> cases l2 <;> simp only [obsChars] at e <;> simp at e
  · exact ⟨rfl, e⟩
  · obtain ⟨h1, h2, h3⟩ := obsItemsDet e
    exact ⟨by rw [h1, h2], h3⟩

theorem evDet : ∀ {e1 e2 : Ev} {r1 r2 : List Char},
    evChars e1 ++ r1 = evChars e2 ++ r2 → e1 = e2 ∧ r1 = r2 := by
  intro e1 e2 r1 r2 e
  obtain ⟨t1, ty1, nd1, a1, du1⟩ := e1
  obtain ⟨t2, ty2, nd2, a2, du2⟩ := e2
  simp only [evChars] at e
  simp at e
  obtain ⟨ha, e⟩ := ratSplit e
  simp at e
  obtain ⟨hdu, e⟩ := ratSplit e
  simp at e
  obtain ⟨hnd, e⟩ := splitChar comma_not_mem_nodeChars comma_not_mem_nodeChars e
  simp at e
  obtain ⟨ht, e⟩ := ratSplit e
  simp at e
  obtain ⟨hty, e⟩ := splitChar newline_not_mem_etChars newline_not_mem_etChars e
  simp at e
  exact ⟨by rw [ha, hdu, ht, nodeChars_inj hnd, etChars_inj hty], e⟩

theorem evItemsDet :
    ∀ {es : List Ev} {e : Ev} {fs : List Ev} {f : Ev} {r1 r2 : List Char},
      evItems e es ++ r1 = evItems f fs ++ r2 → e = f ∧ es = fs ∧ r1 = r2 := by
  intro es
  induction es with
  | nil =>
    intro e fs f r1 r2 h
    cases fs with
    | nil =>
      simp only [evItems] at h
      simp at h
      obtain ⟨he, h⟩ := evDet h
      simp at h
      exact ⟨he, rfl, h⟩
    | cons g gs =>
      exfalso
      simp only [evItems] at h
      simp at h
      obtain ⟨_, h⟩ := evDet h
      injection h with hh _
      exact absurd hh (by decide)
  | cons g gs ih =>
    intro e fs f r1 r2 h
    cases fs with
    | nil =>
      exfalso
      simp only [evItems] at h
      simp at h
      obtain ⟨_, h⟩ := evDet h
      injection h with hh _
      exact absurd hh (by decide)
    | cons g2 gs2 =>
      simp only [evItems] at h
      simp at h
      obtain ⟨he, h⟩ := evDet h
      simp at h
      obtain ⟨h1, h2, h3⟩ := ih h
      exact ⟨he, by rw [h1, h2], h3⟩

theorem evListDet {l1 l2 : List Ev} {r1 r2 : List Char}
    (e : evListChars l1 ++ r1 = evListChars l2 ++ r2) : l1 = l2 ∧ r1 = r2 := by
  cases l1 <;> cases l2 <;> simp only [evListChars] at e <;> simp at e
  · exact ⟨rfl, e⟩
  · obtain ⟨h1, h2, h3⟩ := evItemsDet e
    exact ⟨by rw [h1, h2], h3⟩

-- ===========================================================================
-- Hash-input sensitivity to single-field configuration changes
-- ===========================================================================

theorem hashInput_run (genOf : RngFamily) (cfg : Cfg) :
    hashInput (runSimulation genOf cfg) =
      configChars cfg ++
        (metricsCsvChars (runSimulation genOf cfg).metrics ++
          eventsJsonlChars (runSimulation genOf cfg).events) := rfl

set_option maxRecDepth 4000 in
theorem hashNe_kappa (genOf : RngFamily) (cfg : Cfg) (v : ℚ) (hne : v ≠ cfg.kappa) :
    hashInput (runSimulation genOf { cfg with kappa := v }) ≠
      hashInput (runSimulation genOf cfg) := by
  obtain ⟨cN, cdt, cep, cet, cfd, cie, cig, ck, cobs, com, cp0, cpl, csd,
    csg, cswb, cswk, cte, ctm, cts, ctp⟩ := cfg
  intro e
  rw [hashInput_run, hashInput_run] at e
  simp only [configChars, List.append_assoc, List.cons_append, List.nil_append] at e
  repeat first
    | replace e := List.append_cancel_left e
    | replace e := List.cons_injective e
  exact hne (ratSplit e).1

set_option maxRecDepth 4000 in
theorem hashNe_N (genOf : RngFamily) (cfg : Cfg) (v : ℕ)
    (hne : v ≠ cfg.N) :
    hashInput (runSimulation genOf { cfg with N := v }) ≠
      hashInput (runSimulation genOf cfg) := by
  obtain ⟨cN, cdt, cep, cet, cfd, cie, cig, ck, cobs, com, cp0, cpl, csd,
    csg, cswb, cswk, cte, ctm, cts, ctp⟩ := cfg
  intro e
  rw [hashInput_run, hashInput_run] at e
  simp only [configChars, List.append_assoc, List.cons_append, List.nil_append] at e
  repeat first
    | replace e := List.append_cancel_left e
    | replace e := List.cons_injective e
  exact hne (natSplit e).1

set_option maxRecDepth 4000 in
theorem hashNe_dt (genOf : RngFamily) (cfg : Cfg) (v : ℚ)
    (hne : v ≠ cfg.dt) :
    hashInput (runSimulation genOf { cfg with dt := v }) ≠
      hashInput (runSimulation genOf cfg) := by
  obtain ⟨cN, cdt, cep, cet, cfd, cie, cig, ck, cobs, com, cp0, cpl, csd,
    csg, cswb, cswk, cte, ctm, cts, ctp⟩ := cfg
  intro e
  rw [hashInput_run, hashInput_run] at e
  simp only [configChars, List.append_assoc, List.cons_append, List.nil_append] at e
  repeat first
    | replace e := List.append_cancel_left e
    | replace e := List.cons_injective e
  exact hne (ratSplit e).1

set_option maxRecDepth 4000 in
theorem hashNe_er_p (genOf : RngFamily) (cfg : Cfg) (v : ℚ)
    (hne : v ≠ cfg.er_p) :
    hashInput (runSimulation genOf { cfg with er_p := v }) ≠
      hashInput (runSimulation genOf cfg) := by
  obtain ⟨cN, cdt, cep, cet, cfd, cie, cig, ck, cobs, com, cp0, cpl, csd,
    csg, cswb, cswk, cte, ctm, cts, ctp⟩ := cfg
  intro e
  rw [hashInput_run, hashInput_run] at e
  simp only [configChars, List.append_assoc, List.cons_append, List.nil_append] at e
  repeat first
    | replace e := List.append_cancel_left e
    | replace e := List.cons_injective e
  exact hne (ratSplit e).1

set_option maxRecDepth 4000 in
theorem hashNe_eta (genOf : RngFamily) (cfg : Cfg) (v : ℚ)
    (hne : v ≠ cfg.eta) :
    hashInput (runSimulation genOf { cfg with eta := v }) ≠
      hashInput (runSimulation genOf cfg) := by
  obtain ⟨cN, cdt, cep, cet, cfd, cie, cig, ck, cobs, com, cp0, cpl, csd,
    csg, cswb, cswk, cte, ctm, cts, ctp⟩ := cfg
  intro e
  rw [hashInput_run, hashInput_run] at e
  simp only [configChars, List.append_assoc, List.cons_append, List.nil_append] at e
  repeat first
    | replace e := List.append_cancel_left e
    | replace e := List.cons_injective e
  exact hne (ratSplit e).1

set_option maxRecDepth 4000 in
theorem hashNe_freq_dist (genOf : RngFamily) (cfg : Cfg) (v : FreqDist)
    (hne : v ≠ cfg.freq_dist) :
    hashInput (runSimulation genOf { cfg with freq_dist := v }) ≠
      hashInput (runSimulation genOf cfg) := by
  obtain ⟨cN, cdt, cep, cet, cfd, cie, cig, ck, cobs, com, cp0, cpl, csd,
    csg, cswb, cswk, cte, ctm, cts, ctp⟩ := cfg
  intro e
  rw [hashInput_run, hashInput_run] at e
  simp only [configChars, List.append_assoc, List.cons_append, List.nil_append] at e
  repeat first
    | replace e := List.append_cancel_left e
    | replace e := List.cons_injective e
  exact hne (fdDet e).1

set_option maxRecDepth 4000 in
theorem hashNe_inject_events (genOf : RngFamily) (cfg : Cfg) (v : List Ev)
    (hne : v ≠ cfg.inject_events) :
    hashInput (runSimulation genOf { cfg with inject_events := v }) ≠
      hashInput (runSimulation genOf cfg) := by
  obtain ⟨cN, cdt, cep, cet, cfd, cie, cig, ck, cobs, com, cp0, cpl, csd,
    csg, cswb, cswk, cte, ctm, cts, ctp⟩ := cfg
  intro e
  rw [hashInput_run, hashInput_run] at e
  simp only [configChars, List.append_assoc, List.cons_append, List.nil_append] at e
  repeat first
    | replace e := List.append_cancel_left e
    | replace e := List.cons_injective e
  exact hne (evListDet e).1

set_option maxRecDepth 4000 in
theorem hashNe_integrator (genOf : RngFamily) (cfg : Cfg) (v : Integrator)
    (hne : v ≠ cfg.integrator) :
    hashInput (runSimulation genOf { cfg with integrator := v }) ≠
      hashInput (runSimulation genOf cfg) := by
  obtain ⟨cN, cdt, cep, cet, cfd, cie, cig, ck, cobs, com, cp0, cpl, csd,
    csg, cswb, cswk, cte, ctm, cts, ctp⟩ := cfg
  intro e
  rw [hashInput_run, hashInput_run] at e
  simp only [configChars, List.append_assoc, List.cons_append, List.nil_append] at e
  repeat first
    | replace e := List.append_cancel_left e
    | replace e := List.cons_injective e
  exact hne (integratorChars_inj (splitChar comma_not_mem_integratorChars comma_not_mem_integratorChars e).1)

set_option maxRecDepth 4000 in
theorem hashNe_observers (genOf : RngFamily) (cfg : Cfg) (v : List Obs)
    (hne : v ≠ cfg.observers) :
    hashInput (runSimulation genOf { cfg with observers := v }) ≠
      hashInput (runSimulation genOf cfg) := by
  obtain ⟨cN, cdt, cep, cet, cfd, cie, cig, ck, cobs, com, cp0, cpl, csd,
    csg, cswb, cswk, cte, ctm, cts, ctp⟩ := cfg
  intro e
  rw [hashInput_run, hashInput_run] at e
  simp only [configChars, List.append_assoc, List.cons_append, List.nil_append] at e
  repeat first
    | replace e := List.append_cancel_left e
    | replace e := List.cons_injective e
  exact hne (obsDet e).1

set_option maxRecDepth 4000 in
theorem hashNe_offset_mode (genOf : RngFamily) (cfg : Cfg) (v : OffsetMode)
    (hne : v ≠ cfg.offset_mode) :
    hashInput (runSimulation genOf { cfg with offset_mode := v }) ≠
      hashInput (runSimulation genOf cfg) := by
  obtain ⟨cN, cdt, cep, cet, cfd, cie, cig, ck, cobs, com, cp0, cpl, csd,
    csg, cswb, cswk, cte, ctm, cts, ctp⟩ := cfg
  intro e
  rw [hashInput_run, hashInput_run] at e
  simp only [configChars, List.append_assoc, List.cons_append, List.nil_append] at e
  repeat first
    | replace e := List.append_cancel_left e
    | replace e := List.cons_injective e
  exact hne (offsetModeChars_inj (splitChar comma_not_mem_offsetModeChars comma_not_mem_offsetModeChars e).1)

set_option maxRecDepth 4000 in
theorem hashNe_phi0 (genOf : RngFamily) (cfg : Cfg) (v : ℚ)
    (hne : v ≠ cfg.phi0) :
    hashInput (runSimulation genOf { cfg with phi0 := v }) ≠
      hashInput (runSimulation genOf cfg) := by
  obtain ⟨cN, cdt, cep, cet, cfd, cie, cig, ck, cobs, com, cp0, cpl, csd,
    csg, cswb, cswk, cte, ctm, cts, ctp⟩ := cfg
  intro e
  rw [hashInput_run, hashInput_run] at e
  simp only [configChars, List.append_assoc, List.cons_append, List.nil_append] at e
  repeat first
    | replace e := List.append_cancel_left e
    | replace e := List.cons_injective e
  exact hne (ratSplit e).1

set_option maxRecDepth 4000 in
theorem hashNe_plugin (genOf : RngFamily) (cfg : Cfg) (v : Plugin)
    (hne : v ≠ cfg.plugin) :
    hashInput (runSimulation genOf { cfg with plugin := v }) ≠
      hashInput (runSimulation genOf cfg) := by
  obtain ⟨cN, cdt, cep, cet, cfd, cie, cig, ck, cobs, com, cp0, cpl, csd,
    csg, cswb, cswk, cte, ctm, cts, ctp⟩ := cfg
  intro e
  rw [hashInput_run, hashInput_run] at e
  simp only [configChars, List.append_assoc, List.cons_append, List.nil_append] at e
  repeat first
    | replace e := List.append_cancel_left e
    | replace e := List.cons_injective e
  exact hne (pluginChars_inj (splitChar comma_not_mem_pluginChars comma_not_mem_pluginChars e).1)

set_option maxRecDepth 4000 in
theorem hashNe_seed (genOf : RngFamily) (cfg : Cfg) (v : ℕ)
    (hne : v ≠ cfg.seed) :
    hashInput (runSimulation genOf { cfg with seed := v }) ≠
      hashInput (runSimulation genOf cfg) := by
  obtain ⟨cN, cdt, cep, cet, cfd, cie, cig, ck, cobs, com, cp0, cpl, csd,
    csg, cswb, cswk, cte, ctm, cts, ctp⟩ := cfg
  intro e
  rw [hashInput_run, hashInput_run] at e
  simp only [configChars, List.append_assoc, List.cons_append, List.nil_append] at e
  repeat first
    | replace e := List.append_cancel_left e
    | replace e := List.cons_injective e
  exact hne (natSplit e).1

set_option maxRecDepth 4000 in
theorem hashNe_sigma (genOf : RngFamily) (cfg : Cfg) (v : ℚ)
    (hne : v ≠ cfg.sigma) :
    hashInput (runSimulation genOf { cfg with sigma := v }) ≠
      hashInput (runSimulation genOf cfg) := by
  obtain ⟨cN, cdt, cep, cet, cfd, cie, cig, ck, cobs, com, cp0, cpl, csd,
    csg, cswb, cswk, cte, ctm, cts, ctp⟩ := cfg
  intro e
  rw [hashInput_run, hashInput_run] at e
  simp only [configChars, List.append_assoc, List.cons_append, List.nil_append] at e
  repeat first
    | replace e := List.append_cancel_left e
    | replace e := List.cons_injective e
  exact hne (ratSplit e).1

set_option maxRecDepth 4000 in
theorem hashNe_sw_beta (genOf : RngFamily) (cfg : Cfg) (v : ℚ)
    (hne : v ≠ cfg.sw_beta) :
    hashInput (runSimulation genOf { cfg with sw_beta := v }) ≠
      hashInput (runSimulation genOf cfg) := by
  obtain ⟨cN, cdt, cep, cet, cfd, cie, cig, ck, cobs, com, cp0, cpl, csd,
    csg, cswb, cswk, cte, ctm, cts, ctp⟩ := cfg
  intro e
  rw [hashInput_run, hashInput_run] at e
  simp only [configChars, List.append_assoc, List.cons_append, List.nil_append] at e
  repeat first
    | replace e := List.append_cancel_left e
    | replace e := List.cons_injective e
  exact hne (ratSplit e).1

set_option maxRecDepth 4000 in
theorem hashNe_sw_k (genOf : RngFamily) (cfg : Cfg) (v : ℕ)
    (hne : v ≠ cfg.sw_k) :
    hashInput (runSimulation genOf { cfg with sw_k := v }) ≠
      hashInput (runSimulation genOf cfg) := by
  obtain ⟨cN, cdt, cep, cet, cfd, cie, cig, ck, cobs, com, cp0, cpl, csd,
    csg, cswb, cswk, cte, ctm, cts, ctp⟩ := cfg
  intro e
  rw [hashInput_run, hashInput_run] at e
  simp only [configChars, List.append_assoc, List.cons_append, List.nil_append] at e
  repeat first
    | replace e := List.append_cancel_left e
    | replace e := List.cons_injective e
  exact hne (natSplit e).1

set_option maxRecDepth 4000 in
theorem hashNe_t_end (genOf : RngFamily) (cfg : Cfg) (v : ℚ)
    (hne : v ≠ cfg.t_end) :
    hashInput (runSimulation genOf { cfg with t_end := v }) ≠
      hashInput (runSimulation genOf cfg) := by
  obtain ⟨cN, cdt, cep, cet, cfd, cie, cig, ck, cobs, com, cp0, cpl, csd,
    csg, cswb, cswk, cte, ctm, cts, ctp⟩ := cfg
  intro e
  rw [hashInput_run, hashInput_run] at e
  simp only [configChars, List.append_assoc, List.cons_append, List.nil_append] at e
  repeat first
    | replace e := List.append_cancel_left e
    | replace e := List.cons_injective e
  exact hne (ratSplit e).1

set_option maxRecDepth 4000 in
theorem hashNe_tau_m (genOf : RngFamily) (cfg : Cfg) (v : ℚ)
    (hne : v ≠ cfg.tau_m) :
    hashInput (runSimulation genOf { cfg with tau_m := v }) ≠
      hashInput (runSimulation genOf cfg) := by
  obtain ⟨cN, cdt, cep, cet, cfd, cie, cig, ck, cobs, com, cp0, cpl, csd,
    csg, cswb, cswk, cte, ctm, cts, ctp⟩ := cfg
  intro e
  rw [hashInput_run, hashInput_run] at e
  simp only [configChars, List.append_assoc, List.cons_append, List.nil_append] at e
  repeat first
    | replace e := List.append_cancel_left e
    | replace e := List.cons_injective e
  exact hne (ratSplit e).1

set_option maxRecDepth 4000 in
theorem hashNe_topo_seed (genOf : RngFamily) (cfg : Cfg) (v : ℕ)
    (hne : v ≠ cfg.topo_seed) :
    hashInput (runSimulation genOf { cfg with topo_seed := v }) ≠
      hashInput (runSimulation genOf cfg) := by
  obtain ⟨cN, cdt, cep, cet, cfd, cie, cig, ck, cobs, com, cp0, cpl, csd,
    csg, cswb, cswk, cte, ctm, cts, ctp⟩ := cfg
  intro e
  rw [hashInput_run, hashInput_run] at e
  simp only [configChars, List.append_assoc, List.cons_append, List.nil_append] at e
  repeat first
    | replace e := List.append_cancel_left e
    | replace e := List.cons_injective e
  exact hne (natSplit e).1

set_option maxRecDepth 4000 in
theorem hashNe_topology (genOf : RngFamily) (cfg : Cfg) (v : Topology)
    (hne : v ≠ cfg.topology) :
    hashInput (runSimulation genOf { cfg with topology := v }) ≠
      hashInput (runSimulation genOf cfg) := by
  obtain ⟨cN, cdt, cep, cet, cfd, cie, cig, ck, cobs, com, cp0, cpl, csd,
    csg, cswb, cswk, cte, ctm, cts, ctp⟩ := cfg
  intro e
  rw [hashInput_run, hashInput_run] at e
  simp only [configChars, List.append_assoc, List.cons_append, List.nil_append] at e
  repeat first
    | replace e := List.append_cancel_left e
    | replace e := List.cons_injective e
  exact hne (topologyChars_inj (splitChar newline_not_mem_topologyChars newline_not_mem_topologyChars e).1)

/-- Two configurations that agree everywhere except in exactly one
(recognized) configuration value — the "any configuration value differs,
all else equal" hypothesis of the determinism/hash claim. -/
def DiffersInOneField (c1 c2 : Cfg) : Prop :=
  (c1 = { c2 with N := c1.N } ∧ c1.N ≠ c2.N) ∨
  (c1 = { c2 with dt := c1.dt } ∧ c1.dt ≠ c2.dt) ∨
  (c1 = { c2 with er_p := c1.er_p } ∧ c1.er_p ≠ c2.er_p) ∨
  (c1 = { c2 with eta := c1.eta } ∧ c1.eta ≠ c2.eta) ∨
  (c1 = { c2 with freq_dist := c1.freq_dist } ∧ c1.freq_dist ≠ c2.freq_dist) ∨
  (c1 = { c2 with inject_events := c1.inject_events } ∧ c1.inject_events ≠ c2.inject_events) ∨
  (c1 = { c2 with integrator := c1.integrator } ∧ c1.integrator ≠ c2.integrator) ∨
  (c1 = { c2 with kappa := c1.kappa } ∧ c1.kappa ≠ c2.kappa) ∨
  (c1 = { c2 with observers := c1.observers } ∧ c1.observers ≠ c2.observers) ∨
  (c1 = { c2 with offset_mode := c1.offset_mode } ∧ c1.offset_mode ≠ c2.offset_mode) ∨
  (c1 = { c2 with phi0 := c1.phi0 } ∧ c1.phi0 ≠ c2.phi0) ∨
  (c1 = { c2 with plugin := c1.plugin } ∧ c1.plugin ≠ c2.plugin) ∨
  (c1 = { c2 with seed := c1.seed } ∧ c1.seed ≠ c2.seed) ∨
  (c1 = { c2 with sigma := c1.sigma } ∧ c1.sigma ≠ c2.sigma) ∨
  (c1 = { c2 with sw_beta := c1.sw_beta } ∧ c1.sw_beta ≠ c2.sw_beta) ∨
  (c1 = { c2 with sw_k := c1.sw_k } ∧ c1.sw_k ≠ c2.sw_k) ∨
  (c1 = { c2 with t_end := c1.t_end } ∧ c1.t_end ≠ c2.t_end) ∨
  (c1 = { c2 with tau_m := c1.tau_m } ∧ c1.tau_m ≠ c2.tau_m) ∨
  (c1 = { c2 with topo_seed := c1.topo_seed } ∧ c1.topo_seed ≠ c2.topo_seed) ∨
  (c1 = { c2 with topology := c1.topology } ∧ c1.topology ≠ c2.topology)

/-- C1.  Determinism and hash stability: `run_simulation` is a pure
function of the configuration and the seed-determined generator family, so
two calls with identical cfg produce identical results — in particular an
identical `summary.mean_R_final` — and `build_artifact_bundle` produces an
identical content hash (`hash.txt`, modelled by the exact byte stream fed
to SHA-256); moreover the hashed stream differs whenever any single
configuration value differs, all else equal (so the digests differ up to
SHA-256 collision-freeness). -/
theorem run_simulation_deterministic_and_hash_faithful
    (genOf : RngFamily) (cfg cfg' : Cfg) :
    (cfg = cfg' →
      runSimulation genOf cfg = runSimulation genOf cfg' ∧
      (runSimulation genOf cfg).summary.mean_R_final =
        (runSimulation genOf cfg').summary.mean_R_final ∧
      (buildArtifactBundle (runSimulation genOf cfg)).hashTxt =
        (buildArtifactBundle (runSimulation genOf cfg')).hashTxt) ∧
    (DiffersInOneField cfg cfg' →
      (buildArtifactBundle (runSimulation genOf cfg)).hashTxt ≠
        (buildArtifactBundle (runSimulation genOf cfg')).hashTxt) := by
  constructor
  · rintro rfl
    exact ⟨rfl, rfl, rfl⟩
  · intro h
    rcases h with ⟨hu, hne⟩ | ⟨hu, hne⟩ | ⟨hu, hne⟩ | ⟨hu, hne⟩ | ⟨hu, hne⟩ |
      ⟨hu, hne⟩ | ⟨hu, hne⟩ | ⟨hu, hne⟩ | ⟨hu, hne⟩ | ⟨hu, hne⟩ | ⟨hu, hne⟩ |
      ⟨hu, hne⟩ | ⟨hu, hne⟩ | ⟨hu, hne⟩ | ⟨hu, hne⟩ | ⟨hu, hne⟩ | ⟨hu, hne⟩ |
      ⟨hu, hne⟩ | ⟨hu, hne⟩ | ⟨hu, hne⟩
    · rw [hu]; exact hashNe_N genOf cfg' _ hne
    · rw [hu]; exact hashNe_dt genOf cfg' _ hne
    · rw [hu]; exact hashNe_er_p genOf cfg' _ hne
    · rw [hu]; exact hashNe_eta genOf cfg' _ hne
    · rw [hu]; exact hashNe_freq_dist genOf cfg' _ hne
    · rw [hu]; exact hashNe_inject_events genOf cfg' _ hne
    · rw [hu]; exact hashNe_integrator genOf cfg' _ hne
    · rw [hu]; exact hashNe_kappa genOf cfg' _ hne
    · rw [hu]; exact hashNe_observers genOf cfg' _ hne
    · rw [hu]; exact hashNe_offset_mode genOf cfg' _ hne
    · rw [hu]; exact hashNe_phi0 genOf cfg' _ hne
    · rw [hu]; exact hashNe_plugin genOf cfg' _ hne
    · rw [hu]; exact hashNe_seed genOf cfg' _ hne
    · rw [hu]; exact hashNe_sigma genOf cfg' _ hne
    · rw [hu]; exact hashNe_sw_beta genOf cfg' _ hne
    · rw [hu]; exact hashNe_sw_k genOf cfg' _ hne
    · rw [hu]; exact hashNe_t_end genOf cfg' _ hne
    · rw [hu]; exact hashNe_tau_m genOf cfg' _ hne
    · rw [hu]; exact hashNe_topo_seed genOf cfg' _ hne
    · rw [hu]; exact hashNe_topology genOf cfg' _ hne

/-- All-zero draw streams: a concrete admissible generator family
(`rng.random()` may legitimately return 0). -/
def zeroGen : RngFamily := fun _ => ⟨fun _ => 0, fun _ => 0, fun _ => 0, fun _ => 0⟩

/-- A small concrete configuration used by concrete instantiations. -/
def cfgBase : Cfg :=
  ⟨2, 1, 0, 1 / 2, .constant, [], .euler, 1, [.O1], .chiral, 0, .P1, 0, 0,
   0, 4, 1, 5, 0, .ring⟩

/-- Concrete instantiation of the determinism/hash theorem: changing kappa
from 1 to 2, all else equal, changes the hashed stream. -/
theorem run_simulation_deterministic_and_hash_faithful_witness :
    DiffersInOneField { cfgBase with kappa := 2 } cfgBase ∧
    (buildArtifactBundle (runSimulation zeroGen { cfgBase with kappa := 2 })).hashTxt ≠
      (buildArtifactBundle (runSimulation zeroGen cfgBase)).hashTxt :=
  have hd : DiffersInOneField { cfgBase with kappa := 2 } cfgBase :=
    Or.inr (Or.inr (Or.inr (Or.inr (Or.inr (Or.inr (Or.inr (Or.inl
      ⟨rfl, by decide⟩)))))))
  ⟨hd,
   (run_simulation_deterministic_and_hash_faithful zeroGen
     { cfgBase with kappa := 2 } cfgBase).2 hd⟩

-- ===========================================================================
-- C2 — phase-wrap invariant
-- ===========================================================================

theorem observersPhase_theta (ctx : Ctx) (step : ℕ) (s : SimState) :
    (observersPhase ctx step s).theta = s.theta := by
  unfold observersPhase
  split <;> rfl

theorem physicsPhase_theta_wrapped (ctx : Ctx) (step : ℕ) (s : SimState) (i : ℕ) :
    -piQ ≤ (physicsPhase ctx step s).theta i ∧
      (physicsPhase ctx step s).theta i < piQ := by
  obtain ⟨N, dt, kappa, sigma, eta, tau_m, plugin, integrator, obs, A, phiOff, om, noi⟩ := ctx
  cases plugin
  · unfold physicsPhase
    dsimp only
    split
    · exact wrapQ_mem _
    · exact wrapQ_mem _
  · exact wrapQ_mem _
  · exact wrapQ_mem _

/-- C2 (amended).  Phase-wrap invariant of `run_simulation`: after every
integration step, every component of theta lies in the half-open interval
[−π, π) — closed at −π, open at +π (`(theta + pi) % (2*pi) - pi` under a
positive-modulus float `%`), not the spec's (−π, π]. -/
theorem phases_wrapped_after_every_step (genOf : RngFamily) (cfg : Cfg)
    (k i : ℕ) :
    -piQ ≤ (simStateAt genOf cfg (k + 1)).theta i ∧
      (simStateAt genOf cfg (k + 1)).theta i < piQ := by
  have hobs := observersPhase_theta (initSim genOf cfg).1 k
    (physicsPhase (initSim genOf cfg).1 k
      (expireKicksPhase (initSim genOf cfg).1 ((k : ℚ) * (initSim genOf cfg).1.dt)
        (applyEventsPhase (initSim genOf cfg).1 ((k : ℚ) * (initSim genOf cfg).1.dt)
          (simStateAt genOf cfg k))))
  have hstep : (simStateAt genOf cfg (k + 1)).theta =
      (physicsPhase (initSim genOf cfg).1 k
        (expireKicksPhase (initSim genOf cfg).1 ((k : ℚ) * (initSim genOf cfg).1.dt)
          (applyEventsPhase (initSim genOf cfg).1 ((k : ℚ) * (initSim genOf cfg).1.dt)
            (simStateAt genOf cfg k)))).theta := by
    show (stepFn _ k _).theta = _
    unfold stepFn
    exact hobs
  rw [hstep]
  exact physicsPhase_theta_wrapped _ _ _ _

/-- A one-oscillator configuration whose initial phase is exactly −π under
all-zero uniform draws. -/
def cfgWrap : Cfg := { cfgBase with N := 1 }

theorem cfgWrap_theta1 : (simStateAt zeroGen cfgWrap 1).theta 0 = -piQ := by
  have hstep : (simStateAt zeroGen cfgWrap 1).theta =
      (physicsPhase (initSim zeroGen cfgWrap).1 0
        (expireKicksPhase (initSim zeroGen cfgWrap).1 ((0 : ℚ) * (initSim zeroGen cfgWrap).1.dt)
          (applyEventsPhase (initSim zeroGen cfgWrap).1 ((0 : ℚ) * (initSim zeroGen cfgWrap).1.dt)
            (simStateAt zeroGen cfgWrap 0)))).theta := by
    show (stepFn _ 0 _).theta = _
    unfold stepFn
    exact observersPhase_theta _ _ _
  rw [hstep]
  norm_num [physicsPhase, expireKicksPhase, applyEventsPhase, applyEventsAux,
    simStateAt, initSim, cfgWrap, cfgBase, zeroGen, sortByTime, sampleFrequencies,
    freqDraws, buildGraph, buildRing, buildPhaseOffsetsRing, physicsP1,
    couplingSum, sinM, wrapQ, floatMod, Finset.sum_range_succ, Finset.sum_range_zero,
    (by decide : Integrator.euler ≠ Integrator.rk4)]

/-- C2 counterexample: in a concrete run (one oscillator, constant
frequencies, zero uniform draws giving an initial phase of exactly −π) the
phase after the first integration step equals −π, which lies outside the
claimed interval (−π, π]. -/
theorem phases_wrapped_counterexample :
    (simStateAt zeroGen cfgWrap 1).theta 0 = -piQ ∧
    ¬(-piQ < (simStateAt zeroGen cfgWrap 1).theta 0 ∧
      (simStateAt zeroGen cfgWrap 1).theta 0 ≤ piQ) := by
  refine ⟨cfgWrap_theta1, ?_⟩
  rw [cfgWrap_theta1]
  intro h
  exact lt_irrefl _ h.1

-- ===========================================================================
-- C3 — memory decay in the memory-kernel model
-- ===========================================================================

/-- C3 counterexample: with κ = 0, nonzero memory m ≡ 1 and τₘ = 5 but a
non-synchronized phase state (θ = (0, 1) on a 2-ring), `physics_p2` returns
dmemory₀ = −1/5 + sin 1 ≠ −m₀/τₘ: the memory derivative keeps the coupling
drive −m/τₘ + Σⱼ Aᵢⱼ sin(θⱼ−θᵢ) even at κ = 0. -/
theorem memory_decay_counterexample :
    (physicsP2 2 (fun i => if i = 1 then 1 else 0) (fun _ => 0) (fun _ => 1)
        (buildRing 2 1) (fun _ _ => 0) 0 (1 / 2) 5 0 (fun _ => 0)).2 0 ≠
      -(1 : ℚ) / 5 := by
  norm_num [physicsP2, couplingSum, buildRing, sinM,
    Finset.sum_range_succ, Finset.sum_range_zero]

/-- C3 (amended).  Memory decay: for the memory-kernel model `physics_p2`
with κ = 0 and nonzero memory m, and with no coupling input (the pairwise
coupling sum vanishes, e.g. a fully synchronized phase state), the returned
memory derivative is exactly −m/τₘ at every node. -/
theorem memory_decay_exact (N : ℕ) (theta omega memory : ℕ → ℚ)
    (A phi : ℕ → ℕ → ℚ) (eta tau_m sigma : ℚ) (noise : ℕ → ℚ)
    (hsync : ∀ i j, theta i = theta j) (_hm : ∃ i, memory i ≠ 0) :
    ∀ i, (physicsP2 N theta omega memory A phi 0 eta tau_m sigma noise).2 i =
      -memory i / tau_m := by
  intro i
  have hS : couplingSum N A theta i = 0 := by
    unfold couplingSum
    apply Finset.sum_eq_zero
    intro j _
    rw [hsync j i]
    simp [sinM]
  simp [physicsP2, hS]

/-- Concrete instantiation of the amended memory-decay theorem: a
synchronized two-node state with memory ≡ 2 and τₘ = 5 decays at −2/5. -/
theorem memory_decay_exact_witness :
    (∃ i, (fun _ : ℕ => (2 : ℚ)) i ≠ 0) ∧
    ∀ i, (physicsP2 2 (fun _ => 1 / 3) (fun _ => 0) (fun _ => 2)
        (buildRing 2 1) (fun _ _ => 0) 0 (1 / 2) 5 0 (fun _ => 0)).2 i =
      -(fun _ : ℕ => (2 : ℚ)) i / 5 :=
  ⟨⟨0, by norm_num⟩,
   memory_decay_exact 2 _ _ _ _ _ (1 / 2) 5 0 _ (fun _ _ => rfl) ⟨0, by norm_num⟩⟩

-- ===========================================================================
-- C4 — phase-offset model reduces to baseline
-- ===========================================================================

/-- C4.  Phase-offset model reduces to baseline: with the phase-offset
matrix identically zero and identical inputs (theta, omega, A, params) and
identical RNG state (the same standard-normal draws), `physics_p3` returns
exactly the same dtheta as `physics_p1`. -/
theorem p3_zero_offset_equals_p1 (N : ℕ) (theta omega : ℕ → ℚ)
    (A : ℕ → ℕ → ℚ) (kappa sigma : ℚ) (noise : ℕ → ℚ) :
    physicsP3 N theta omega A (fun _ _ => 0) kappa sigma noise =
      physicsP1 N theta omega A (fun _ _ => 0) kappa sigma noise := by
  funext i
  simp [physicsP3, physicsP1, couplingSum]

-- ===========================================================================
-- C5 — RK4/noise fallback to the explicit scheme
-- ===========================================================================

/-- The state an integration step sees right before its physics evaluation
(after the perturbation and expiry phases). -/
def preState (genOf : RngFamily) (cfg : Cfg) (k : ℕ) : SimState :=
  expireKicksPhase (initSim genOf cfg).1 ((k : ℚ) * cfg.dt)
    (applyEventsPhase (initSim genOf cfg).1 ((k : ℚ) * cfg.dt)
      (simStateAt genOf cfg k))

theorem simStateAt_succ_theta (genOf : RngFamily) (cfg : Cfg) (k : ℕ) :
    (simStateAt genOf cfg (k + 1)).theta =
      (physicsPhase (initSim genOf cfg).1 k (preState genOf cfg k)).theta := by
  show (stepFn _ k _).theta = _
  unfold stepFn
  rw [observersPhase_theta]
  rfl

/-- C5.  RK4/noise fallback: for every configuration requesting the RK4
integrator together with a nonzero noise amplitude sigma > 0 on the
baseline model, `run_simulation` (which is total in this embedding — the
fallback is a branch, not an exception path) uses the first-order explicit
update θ ← wrap(θ + dt·dθ) at every step instead of the 4th-order
Runge–Kutta update. -/
theorem rk4_noise_fallback (genOf : RngFamily) (cfg : Cfg)
    (hp : cfg.plugin = .P1) (_hi : cfg.integrator = .rk4) (hs : 0 < cfg.sigma) :
    ∀ k i,
      (simStateAt genOf cfg (k + 1)).theta i =
        wrapQ ((preState genOf cfg k).theta i +
          cfg.dt * physicsP1 cfg.N (preState genOf cfg k).theta
            (preState genOf cfg k).omega (initSim genOf cfg).1.A
            (initSim genOf cfg).1.phiOff cfg.kappa cfg.sigma
            ((initSim genOf cfg).1.noiseAt k) i) := by
  intro k i
  rw [simStateAt_succ_theta]
  have e1 : (initSim genOf cfg).1.plugin = cfg.plugin := rfl
  unfold physicsPhase
  rw [e1, hp]
  have hcond : ¬((initSim genOf cfg).1.integrator = .rk4 ∧
      (initSim genOf cfg).1.sigma = 0) := by
    rintro ⟨-, h0⟩
    exact absurd h0 (ne_of_gt hs)
  dsimp only
  rw [if_neg hcond]
  rfl

/-- A configuration requesting RK4 with nonzero noise on the baseline
model. -/
def cfgRkN : Cfg := { cfgBase with integrator := .rk4, sigma := 1 / 10 }

/-- Concrete instantiation of the RK4/noise fallback theorem. -/
theorem rk4_noise_fallback_witness :
    cfgRkN.plugin = Plugin.P1 ∧ cfgRkN.integrator = Integrator.rk4 ∧
    0 < cfgRkN.sigma ∧
    ∀ k i,
      (simStateAt zeroGen cfgRkN (k + 1)).theta i =
        wrapQ ((preState zeroGen cfgRkN k).theta i +
          cfgRkN.dt * physicsP1 cfgRkN.N (preState zeroGen cfgRkN k).theta
            (preState zeroGen cfgRkN k).omega (initSim zeroGen cfgRkN).1.A
            (initSim zeroGen cfgRkN).1.phiOff cfgRkN.kappa cfgRkN.sigma
            ((initSim zeroGen cfgRkN).1.noiseAt k) i) :=
  ⟨rfl, rfl, by norm_num [cfgRkN, cfgBase],
   rk4_noise_fallback zeroGen cfgRkN rfl rfl (by norm_num [cfgRkN, cfgBase])⟩

-- ===========================================================================
-- C10 — integrator selection is ignored for the non-baseline models
-- ===========================================================================

theorem observersPhase_memory (ctx : Ctx) (step : ℕ) (s : SimState) :
    (observersPhase ctx step s).memory = s.memory := by
  unfold observersPhase
  split <;> rfl

theorem simStateAt_succ_memory (genOf : RngFamily) (cfg : Cfg) (k : ℕ) :
    (simStateAt genOf cfg (k + 1)).memory =
      (physicsPhase (initSim genOf cfg).1 k (preState genOf cfg k)).memory := by
  show (stepFn _ k _).memory = _
  unfold stepFn
  rw [observersPhase_memory]
  rfl

/-- C10.  Integrator selection is ignored for the non-baseline models: for
every configuration with plugin P2 or P3 and every integrator selection —
in particular rk4 with sigma = 0 — `run_simulation` performs the
first-order explicit update θ ← wrap(θ + dt·dθ) (and m ← m + dt·dm for P2)
at every step. -/
theorem integrator_ignored_for_nonbaseline (genOf : RngFamily) (cfg : Cfg)
    (k i : ℕ) :
    (cfg.plugin = .P2 →
      (simStateAt genOf cfg (k + 1)).theta i =
        wrapQ ((preState genOf cfg k).theta i +
          cfg.dt * (physicsP2 cfg.N (preState genOf cfg k).theta
            (preState genOf cfg k).omega (preState genOf cfg k).memory
            (initSim genOf cfg).1.A (initSim genOf cfg).1.phiOff
            cfg.kappa cfg.eta cfg.tau_m cfg.sigma
            ((initSim genOf cfg).1.noiseAt k)).1 i) ∧
      (simStateAt genOf cfg (k + 1)).memory i =
        (preState genOf cfg k).memory i +
          cfg.dt * (physicsP2 cfg.N (preState genOf cfg k).theta
            (preState genOf cfg k).omega (preState genOf cfg k).memory
            (initSim genOf cfg).1.A (initSim genOf cfg).1.phiOff
            cfg.kappa cfg.eta cfg.tau_m cfg.sigma
            ((initSim genOf cfg).1.noiseAt k)).2 i) ∧
    (cfg.plugin = .P3 →
      (simStateAt genOf cfg (k + 1)).theta i =
        wrapQ ((preState genOf cfg k).theta i +
          cfg.dt * physicsP3 cfg.N (preState genOf cfg k).theta
            (preState genOf cfg k).omega (initSim genOf cfg).1.A
            (initSim genOf cfg).1.phiOff cfg.kappa cfg.sigma
            ((initSim genOf cfg).1.noiseAt k) i)) := by
  have e1 : (initSim genOf cfg).1.plugin = cfg.plugin := rfl
  constructor
  · intro hp
    rw [simStateAt_succ_theta, simStateAt_succ_memory]
    unfold physicsPhase
    rw [e1, hp]
    exact ⟨rfl, rfl⟩
  · intro hp
    rw [simStateAt_succ_theta]
    unfold physicsPhase
    rw [e1, hp]
    rfl

/-- A memory-kernel configuration requesting RK4 with zero noise. -/
def cfgP2rk4 : Cfg := { cfgBase with plugin := .P2, integrator := .rk4 }

/-- Concrete instantiation of the non-baseline integrator theorem: P2 with
rk4 requested and sigma = 0 still takes the explicit update. -/
theorem integrator_ignored_for_nonbaseline_witness :
    cfgP2rk4.plugin = Plugin.P2 ∧ cfgP2rk4.integrator = Integrator.rk4 ∧
    cfgP2rk4.sigma = 0 ∧
    ((simStateAt zeroGen cfgP2rk4 1).theta 0 =
      wrapQ ((preState zeroGen cfgP2rk4 0).theta 0 +
        cfgP2rk4.dt * (physicsP2 cfgP2rk4.N (preState zeroGen cfgP2rk4 0).theta
          (preState zeroGen cfgP2rk4 0).omega (preState zeroGen cfgP2rk4 0).memory
          (initSim zeroGen cfgP2rk4).1.A (initSim zeroGen cfgP2rk4).1.phiOff
          cfgP2rk4.kappa cfgP2rk4.eta cfgP2rk4.tau_m cfgP2rk4.sigma
          ((initSim zeroGen cfgP2rk4).1.noiseAt 0)).1 0) ∧
     (simStateAt zeroGen cfgP2rk4 1).memory 0 =
      (preState zeroGen cfgP2rk4 0).memory 0 +
        cfgP2rk4.dt * (physicsP2 cfgP2rk4.N (preState zeroGen cfgP2rk4 0).theta
          (preState zeroGen cfgP2rk4 0).omega (preState zeroGen cfgP2rk4 0).memory
          (initSim zeroGen cfgP2rk4).1.A (initSim zeroGen cfgP2rk4).1.phiOff
          cfgP2rk4.kappa cfgP2rk4.eta cfgP2rk4.tau_m cfgP2rk4.sigma
          ((initSim zeroGen cfgP2rk4).1.noiseAt 0)).2 0) :=
  ⟨rfl, rfl, rfl, (integrator_ignored_for_nonbaseline zeroGen cfgP2rk4 0 0).1 rfl⟩

-- ===========================================================================
-- C6 — instability functional O2
-- ===========================================================================

theorem o2_slice_eq (h : List ℚ) (w : ℕ) (hlen : w + 1 ≤ h.length) :
    (h.drop (h.length - w - 1)).take w =
      h.dropLast.drop (h.dropLast.length - w) := by
  rw [List.dropLast_eq_take, List.length_take]
  have e1 : min (h.length - 1) h.length - w = h.length - w - 1 := by omega
  rw [e1, List.drop_take]
  have e2 : h.length - 1 - (h.length - w - 1) = w := by omega
  rw [e2]

/-- C6.  Instability functional O2: for every R-history list (nonnegative
entries, as produced by O1) and baseline window w ≥ 1, `observer_o2`
returns 0 whenever the history has at most w samples; otherwise it returns
|R_last − baseline| / baseline, where baseline is the mean of the w samples
immediately preceding the most recent one, and returns 0 when that baseline
is numerically negligible (below the code's 1e-9 guard). -/
theorem observer_o2_spec (history : List ℚ) (window : ℕ)
    (_hw : 1 ≤ window) (_hpos : ∀ x ∈ history, 0 ≤ x) :
    (history.length ≤ window → observerO2 history window = 0) ∧
    (window + 1 ≤ history.length →
      (listMean (history.dropLast.drop (history.dropLast.length - window)) <
          1 / 10 ^ 9 → observerO2 history window = 0) ∧
      (1 / 10 ^ 9 ≤
          listMean (history.dropLast.drop (history.dropLast.length - window)) →
        observerO2 history window =
          |history.getLastD 0 -
              listMean (history.dropLast.drop (history.dropLast.length - window))| /
            listMean (history.dropLast.drop (history.dropLast.length - window)))) := by
  constructor
  · intro hlen
    unfold observerO2
    rw [if_pos (by omega)]
  · intro hlen
    have hs := o2_slice_eq history window hlen
    constructor
    · intro hneg
      unfold observerO2
      rw [if_neg (by omega)]
      dsimp only
      rw [hs, if_pos hneg]
    · intro hge
      unfold observerO2
      rw [if_neg (by omega)]
      dsimp only
      rw [hs, if_neg (by exact not_lt.mpr hge)]

/-- Concrete instantiation of the O2 theorem on the history
[1/2, 1/2, 1] with window 1: baseline 1/2, result |1 − 1/2| / (1/2). -/
theorem observer_o2_spec_witness :
    (1 : ℕ) ≤ 1 ∧ 1 + 1 ≤ [1 / 2, 1 / 2, (1 : ℚ)].length ∧
    observerO2 [1 / 2, 1 / 2, 1] 1 =
      |[1 / 2, 1 / 2, (1 : ℚ)].getLastD 0 -
          listMean ([1 / 2, 1 / 2, (1 : ℚ)].dropLast.drop
            ([1 / 2, 1 / 2, (1 : ℚ)].dropLast.length - 1))| /
        listMean ([1 / 2, 1 / 2, (1 : ℚ)].dropLast.drop
          ([1 / 2, 1 / 2, (1 : ℚ)].dropLast.length - 1)) :=
  ⟨le_refl 1, by norm_num,
   ((observer_o2_spec [1 / 2, 1 / 2, 1] 1 (le_refl 1)
     (by intro x hx; simp at hx; rcases hx with rfl | rfl | rfl <;> norm_num)).2
     (by norm_num)).2 (by norm_num [listMean])⟩

-- ===========================================================================
-- C7 — omega-kick apply and exact restore
-- ===========================================================================

theorem foldl_pointwise {α : Type} (g : ℕ → α) :
    ∀ (l : List ℕ) (f0 : ℕ → α) (i : ℕ),
      (l.foldl (fun f nj => fun x => if x = nj then g nj else f x) f0) i =
        if i ∈ l then g i else f0 i := by
  intro l
  induction l with
  | nil => simp
  | cons a t ih =>
    intro f0 i
    simp only [List.foldl_cons]
    rw [ih]
    by_cases hm : i ∈ t
    · simp [hm]
    · by_cases ha : i = a <;> simp [hm, ha]

/-- C7.  Omega-kick apply and exact restore, in the structure of one
`run_simulation` step: (i) a frequency-kick event consumed at step time t
sets each targeted natural frequency to (setup-time original + amplitude)
and records the expiry t + duration; (ii) at any step whose time has
reached or passed a pending expiry the frequency is restored exactly to
its pre-kick (setup-time original) value and the record removed, while a
not-yet-expired record leaves frequency and record untouched (so the
restore happens exactly at the first qualifying step); (iii) within a step
the expiry phase runs after event application and before the physics
evaluation. -/
theorem omega_kick_apply_and_restore (ctx : Ctx) (t : ℚ) (ev : Ev)
    (s : SimState) (ni : ℕ) :
    (ev.etype = .omega_kick → ni ∈ evTargets ctx.N ev.node →
      (applyOneEvent ctx t ev s).omega ni =
        ctx.omegaOriginal ni + ev.amplitude ∧
      (applyOneEvent ctx t ev s).kickEnds ni = some (t + ev.duration)) ∧
    (∀ e : ℚ, s.kickEnds ni = some e →
      (e ≤ t →
        (expireKicksPhase ctx t s).omega ni = ctx.omegaOriginal ni ∧
        (expireKicksPhase ctx t s).kickEnds ni = none) ∧
      (t < e →
        (expireKicksPhase ctx t s).omega ni = s.omega ni ∧
        (expireKicksPhase ctx t s).kickEnds ni = some e)) ∧
    (∀ k : ℕ, stepFn ctx k s =
      observersPhase ctx k (physicsPhase ctx k
        (expireKicksPhase ctx ((k : ℚ) * ctx.dt)
          (applyEventsPhase ctx ((k : ℚ) * ctx.dt) s)))) := by
  refine ⟨?_, ?_, fun _ => rfl⟩
  · intro hev hmem
    obtain ⟨et, ty, nd, am, du⟩ := ev
    cases ty
    · exact absurd hev (by simp)
    · unfold applyOneEvent
      dsimp only
      rw [foldl_pointwise, foldl_pointwise]
      constructor
      · rw [if_pos hmem]
      · rw [if_pos hmem]
  · intro e he
    constructor
    · intro hle
      unfold expireKicksPhase
      dsimp only
      rw [he]
      exact ⟨by simp [hle], by simp [hle]⟩
    · intro hgt
      unfold expireKicksPhase
      dsimp only
      rw [he]
      exact ⟨by simp [not_le.mpr hgt], by simp [not_le.mpr hgt]⟩

/-- A small concrete context for instantiating the omega-kick theorem. -/
def ctxW : Ctx :=
  ⟨2, 1, 1, 0, 1 / 2, 5, .P1, .euler, [.O1], fun _ _ => 0, fun _ _ => 0,
   fun i => (i : ℚ), fun _ _ => 0⟩

/-- A concrete all-node omega-kick event (amplitude 1/4, duration 2). -/
def evW : Ev := ⟨5, .omega_kick, .all, 1 / 4, 2⟩

/-- A concrete state with a pending kick expiry at time 3 on every node. -/
def sW : SimState :=
  ⟨fun _ => 0, fun _ => 0, fun i => (i : ℚ), fun _ => some 3, [], [], [], []⟩

/-- Concrete instantiation of the omega-kick theorem: applying the kick at
t = 5 overrides node 0 to original + 1/4 with expiry 7, and the expiry
phase at t = 5 restores a record expiring at 3 and clears it. -/
theorem omega_kick_apply_and_restore_witness :
    evW.etype = .omega_kick ∧ (0 : ℕ) ∈ evTargets ctxW.N evW.node ∧
    sW.kickEnds 0 = some 3 ∧ (3 : ℚ) ≤ 5 ∧
    ((applyOneEvent ctxW 5 evW sW).omega 0 =
        ctxW.omegaOriginal 0 + evW.amplitude ∧
      (applyOneEvent ctxW 5 evW sW).kickEnds 0 = some (5 + evW.duration)) ∧
    ((expireKicksPhase ctxW 5 sW).omega 0 = ctxW.omegaOriginal 0 ∧
      (expireKicksPhase ctxW 5 sW).kickEnds 0 = none) :=
  ⟨rfl, by simp [evW, ctxW, evTargets], rfl, by norm_num,
   (omega_kick_apply_and_restore ctxW 5 evW sW 0).1 rfl
     (by simp [evW, ctxW, evTargets]),
   ((omega_kick_apply_and_restore ctxW 5 evW sW 0).2.1 3 rfl).1 (by norm_num)⟩

-- ===========================================================================
-- C8 — ring adjacency structure
-- ===========================================================================

theorem ring_succ_mod (N i : ℕ) (hi : i < N) :
    (i + 1) % N = if i + 1 = N then 0 else i + 1 := by
  by_cases h : i + 1 = N
  · simp [h]
  · rw [if_neg h, Nat.mod_eq_of_lt (by omega)]

theorem ring_pred_mod (N i : ℕ) (hN : 1 ≤ N) (hi : i < N) :
    (i + (N - 1)) % N = if i = 0 then N - 1 else i - 1 := by
  by_cases h : i = 0
  · rw [if_pos h, h, Nat.zero_add, Nat.mod_eq_of_lt (by omega)]
  · rw [if_neg h]
    have e : i + (N - 1) = (i - 1) + N := by omega
    rw [e, Nat.add_mod_right, Nat.mod_eq_of_lt (by omega)]

theorem ring_sym_aux (N : ℕ) (h3 : 3 ≤ N) (i j : ℕ) (hi : i < N) (_hj : j < N)
    (h : j = (i + 1) % N ∨ j = (i + (N - 1)) % N) :
    i = (j + 1) % N ∨ i = (j + (N - 1)) % N := by
  rcases h with rfl | rfl
  · right
    rw [Nat.mod_add_mod]
    have e : i + 1 + (N - 1) = i + N := by omega
    rw [e, Nat.add_mod_right]
    exact (Nat.mod_eq_of_lt hi).symm
  · left
    rw [Nat.mod_add_mod]
    have e : i + (N - 1) + 1 = i + N := by omega
    rw [e, Nat.add_mod_right]
    exact (Nat.mod_eq_of_lt hi).symm

/-- C8 (amended).  Ring adjacency structure: for every N ≥ 3 the adjacency
matrix returned by `build_ring` is symmetric, has zero diagonal, and every
row sums to exactly 2 (each node has degree exactly 2).  (For N ≤ 2 the
two neighbour writes land on the same cell, so the row sum is 1, and for
N = 1 the diagonal is hit.) -/
theorem ring_adjacency_structure (N : ℕ) (hN : 3 ≤ N) :
    (∀ i j, buildRing N 1 i j = buildRing N 1 j i) ∧
    (∀ i, buildRing N 1 i i = 0) ∧
    (∀ i, i < N → ∑ j ∈ Finset.range N, buildRing N 1 i j = 2) := by
  refine ⟨?_, ?_, ?_⟩
  · intro i j
    have hiff : (i < N ∧ j < N ∧ (j = (i + 1) % N ∨ j = (i + (N - 1)) % N)) ↔
        (j < N ∧ i < N ∧ (i = (j + 1) % N ∨ i = (j + (N - 1)) % N)) := by
      constructor
      · rintro ⟨hi, hj, hd⟩
        exact ⟨hj, hi, ring_sym_aux N hN i j hi hj hd⟩
      · rintro ⟨hj, hi, hd⟩
        exact ⟨hi, hj, ring_sym_aux N hN j i hj hi hd⟩
    unfold buildRing
    rw [if_congr hiff rfl rfl]
  · intro i
    unfold buildRing
    rw [if_neg]
    rintro ⟨hi, -, hd⟩
    rcases hd with hd | hd
    · rw [ring_succ_mod N i hi] at hd
      by_cases h : i + 1 = N
      · simp [h] at hd
        omega
      · simp [h] at hd
    · rw [ring_pred_mod N i (by omega) hi] at hd
      by_cases h : i = 0
      · simp [h] at hd
        omega
      · simp [h] at hd
        omega
  · intro i hi
    have ha : (i + 1) % N < N := Nat.mod_lt _ (by omega)
    have hb : (i + (N - 1)) % N < N := Nat.mod_lt _ (by omega)
    have hab : (i + 1) % N ≠ (i + (N - 1)) % N := by
      rw [ring_succ_mod N i hi, ring_pred_mod N i (by omega) hi]
      split_ifs <;> omega
    have hrw : ∀ j ∈ Finset.range N, buildRing N 1 i j =
        (if j = (i + 1) % N then (1 : ℚ) else 0) +
        (if j = (i + (N - 1)) % N then (1 : ℚ) else 0) := by
      intro j hj
      rw [Finset.mem_range] at hj
      unfold buildRing
      by_cases h1 : j = (i + 1) % N
      · rw [if_pos ⟨hi, hj, Or.inl h1⟩, if_pos h1, if_neg (fun hc => hab (h1.symm.trans hc))]
        norm_num
      · by_cases h2 : j = (i + (N - 1)) % N
        · rw [if_pos ⟨hi, hj, Or.inr h2⟩, if_neg h1, if_pos h2]
          norm_num
        · rw [if_neg, if_neg h1, if_neg h2]
          · norm_num
          · rintro ⟨-, -, hd | hd⟩
            · exact h1 hd
            · exact h2 hd
    rw [Finset.sum_congr rfl hrw, Finset.sum_add_distrib,
      Finset.sum_ite_eq' (Finset.range N) ((i + 1) % N) (fun _ => (1 : ℚ)),
      Finset.sum_ite_eq' (Finset.range N) ((i + (N - 1)) % N) (fun _ => (1 : ℚ)),
      if_pos (Finset.mem_range.mpr ha), if_pos (Finset.mem_range.mpr hb)]
    norm_num

/-- C8 counterexample: for N = 2 the two neighbour writes coincide, so row
0 of `build_ring(2)` sums to 1, not 2. -/
theorem ring_adjacency_counterexample :
    ∑ j ∈ Finset.range 2, buildRing 2 1 0 j = 1 ∧ (1 : ℚ) ≠ 2 := by
  constructor
  · rw [Finset.sum_range_succ, Finset.sum_range_succ, Finset.sum_range_zero]
    norm_num [buildRing]
  · norm_num

/-- Concrete instantiation of the amended ring theorem at N = 4. -/
theorem ring_adjacency_structure_witness :
    (3 : ℕ) ≤ 4 ∧
    (∀ i j, buildRing 4 1 i j = buildRing 4 1 j i) ∧
    (∀ i, buildRing 4 1 i i = 0) ∧
    (∀ i, i < 4 → ∑ j ∈ Finset.range 4, buildRing 4 1 i j = 2) :=
  ⟨by norm_num, (ring_adjacency_structure 4 (by norm_num)).1,
   (ring_adjacency_structure 4 (by norm_num)).2.1,
   (ring_adjacency_structure 4 (by norm_num)).2.2⟩

-- ===========================================================================
-- C9 — Erdős–Rényi extremes
-- ===========================================================================

/-- C9.  Erdős–Rényi extremes: for every N and every admissible RNG state
(`rng.random()` draws lie in [0, 1)), `build_erdos_renyi` with p = 1
returns the fully-connected 0/1 adjacency matrix (all off-diagonal entries
1, zero diagonal), with p = 0 returns the zero matrix, and the result is
symmetric for every p. -/
theorem erdos_renyi_extremes (N : ℕ) (u : ℕ → ℚ)
    (hu : ∀ k, 0 ≤ u k ∧ u k < 1) :
    (∀ i j, buildER N 1 u i j = if i < N ∧ j < N ∧ i ≠ j then 1 else 0) ∧
    (∀ i j, buildER N 0 u i j = 0) ∧
    (∀ p i j, buildER N p u i j = buildER N p u j i) := by
  refine ⟨?_, ?_, ?_⟩
  · intro i j
    unfold buildER
    by_cases h : i < N ∧ j < N ∧ i ≠ j
    · rw [if_pos ⟨h.1, h.2.1, h.2.2, (hu _).2⟩, if_pos h]
    · rw [if_neg, if_neg h]
      rintro ⟨h1, h2, h3, -⟩
      exact h ⟨h1, h2, h3⟩
  · intro i j
    unfold buildER
    rw [if_neg]
    rintro ⟨-, -, -, hlt⟩
    exact absurd hlt (not_lt.mpr (hu _).1)
  · intro p i j
    have hiff : (i < N ∧ j < N ∧ i ≠ j ∧ u (pairIdx N (min i j) (max i j)) < p) ↔
        (j < N ∧ i < N ∧ j ≠ i ∧ u (pairIdx N (min j i) (max j i)) < p) := by
      rw [min_comm, max_comm]
      constructor
      · rintro ⟨a, b, c, d⟩
        exact ⟨b, a, c.symm, d⟩
      · rintro ⟨a, b, c, d⟩
        exact ⟨b, a, c.symm, d⟩
    unfold buildER
    rw [if_congr hiff rfl rfl]

/-- Concrete instantiation of the Erdős–Rényi theorem at N = 3 with the
all-zero draw stream. -/
theorem erdos_renyi_extremes_witness :
    (∀ k : ℕ, 0 ≤ (fun _ : ℕ => (0 : ℚ)) k ∧ (fun _ : ℕ => (0 : ℚ)) k < 1) ∧
    (∀ i j, buildER 3 1 (fun _ => 0) i j =
      if i < 3 ∧ j < 3 ∧ i ≠ j then 1 else 0) ∧
    (∀ i j, buildER 3 0 (fun _ => 0) i j = 0) ∧
    (∀ p i j, buildER 3 p (fun _ => 0) i j = buildER 3 p (fun _ => 0) j i) :=
  ⟨fun _ => ⟨le_refl 0, by norm_num⟩,
   (erdos_renyi_extremes 3 (fun _ => 0) (fun _ => ⟨le_refl 0, by norm_num⟩)).1,
   (erdos_renyi_extremes 3 (fun _ => 0) (fun _ => ⟨le_refl 0, by norm_num⟩)).2.1,
   (erdos_renyi_extremes 3 (fun _ => 0) (fun _ => ⟨le_refl 0, by norm_num⟩)).2.2⟩
